import Mathlib

/-!
# Ficus runtime: reference counting and the status protocol

A shallow embedding of `runtime/ficus/ficus.h`, `runtime/ficus/impl/ficus.impl.h`
and `runtime/ficus/impl/string.impl.h`.

* Pointers are natural numbers; `0` is the null pointer.
* A memory is a partial map from the address of an allocation to its contents,
  together with the trace of the observable actions performed so far
  (atomic count updates, calls of `fx_free`, calls through injected function
  pointers).
* `int_` is `intptr_t`, taken to be 64 bits wide; `FX_XADD` wraps.
* A dereference of an address that holds no live allocation has no defined
  result: the operation returns `none`.
-/

namespace Ficus

/-! ## Error codes (`ficus.h`, the anonymous enum) -/

def FX_OK : Int := 0
def FX_EXN_Failure : Int := -1
def FX_EXN_AssertError : Int := -2
def FX_EXN_NotFoundError : Int := -3
def FX_EXN_OutOfMemError : Int := -4
def FX_EXN_OutOfRangeError : Int := -5
def FX_EXN_DivByZeroError : Int := -6
def FX_EXN_SizeMismatchError : Int := -7
def FX_EXN_TypeMismatchError : Int := -8
def FX_EXN_DimError : Int := -9
def FX_EXN_SizeError : Int := -10
def FX_EXN_FileOpenError : Int := -11
def FX_EXN_NullFileError : Int := -12
def FX_EXN_IOError : Int := -13
def FX_EXN_NoMatchError : Int := -14
def FX_EXN_Break : Int := -15
def FX_EXN_Continue : Int := -16
def FX_EXN_NullPtrError : Int := -17
def FX_EXN_ZeroStepError : Int := -18
def FX_EXN_ASCIIError : Int := -19
def FX_EXN_NullListError : Int := -20
def FX_EXN_OptionError : Int := -21
def FX_EXN_User : Int := -1024

/-- The built-in failure kinds of the enum: every enumerator other than
`FX_OK`, `FX_EXN_Break`, `FX_EXN_Continue` and `FX_EXN_User`. -/
def builtin_failures : List Int :=
  [FX_EXN_Failure, FX_EXN_AssertError, FX_EXN_NotFoundError, FX_EXN_OutOfMemError,
   FX_EXN_OutOfRangeError, FX_EXN_DivByZeroError, FX_EXN_SizeMismatchError,
   FX_EXN_TypeMismatchError, FX_EXN_DimError, FX_EXN_SizeError, FX_EXN_FileOpenError,
   FX_EXN_NullFileError, FX_EXN_IOError, FX_EXN_NoMatchError, FX_EXN_NullPtrError,
   FX_EXN_ZeroStepError, FX_EXN_ASCIIError, FX_EXN_NullListError, FX_EXN_OptionError]

/-- The two control-only codes. -/
def control_codes : List Int := [FX_EXN_Break, FX_EXN_Continue]

/-! ## Memory -/

/-- An address; `0` is the null pointer. -/
abbrev Addr := Nat

/-- Smallest and largest value of `int_` (`intptr_t`, 64 bits). -/
def INTPTR_MIN : Int := -(2 ^ 63)
def INTPTR_MAX : Int := 2 ^ 63 - 1

/-- Two's complement wrap-around of an `int_`. -/
def wrap_int_ (x : Int) : Int := (x + 2 ^ 63) % 2 ^ 64 - 2 ^ 63

/-- Observable actions. `xadd p old new` is one `FX_XADD` on the count of the
allocation at `p` (value read, value stored); `free p` is `fx_free(p)` on a
non-null pointer; `call f arg` is a call through the function pointer `f`. -/
inductive Event where
  | xadd (p : Addr) (old new : Int)
  | free (p : Addr)
  | call (f : Nat) (arg : Addr)
  deriving DecidableEq

/-- The live allocations of one family and the actions performed so far. -/
structure Mem (α : Type) where
  cells : Addr → Option α
  trace : List Event

/-- Every family starts with a reference count. -/
class HasRc (α : Type) where
  rc : α → Int
  set_rc : α → Int → α

/-- Replace the contents of one address. -/
def Mem.write {α : Type} (m : Mem α) (p : Addr) (v : Option α) : Mem α :=
  { m with cells := fun q => if q = p then v else m.cells q }

/-- Append one action to the trace. -/
def Mem.log {α : Type} (m : Mem α) (e : Event) : Mem α :=
  { m with trace := m.trace ++ [e] }

/-- `FX_XADD(&obj->rc, delta)`: atomic fetch-and-add on the count of the
allocation at `p`; returns the value before the addition. -/
def FX_XADD {α : Type} [HasRc α] (m : Mem α) (p : Addr) (delta : Int) :
    Option (Int × Mem α) :=
  match m.cells p with
  | none => none
  | some c =>
    let old := HasRc.rc c
    let new := wrap_int_ (old + delta)
    some (old, (m.write p (some (HasRc.set_rc c new))).log (Event.xadd p old new))

/-- `FX_INCREF(rc)` is `FX_XADD(&(rc), 1)`. -/
def FX_INCREF {α : Type} [HasRc α] (m : Mem α) (p : Addr) : Option (Int × Mem α) :=
  FX_XADD m p 1

/-- `FX_DECREF(rc)` is `FX_XADD(&(rc), -1)`. -/
def FX_DECREF {α : Type} [HasRc α] (m : Mem α) (p : Addr) : Option (Int × Mem α) :=
  FX_XADD m p (-1)

/-- `fx_free(ptr)`, that is `free(ptr)`: nothing on a null pointer, releases a
live allocation, undefined on anything else. -/
def fx_free {α : Type} (m : Mem α) (ptr : Addr) : Option (Mem α) :=
  if ptr = 0 then some m
  else match m.cells ptr with
    | none => none
    | some _ => some ((m.write ptr none).log (Event.free ptr))

/-- A call of an injected destructor: `none` is `FX_NOP`, which expands to
nothing; `some f` is the function `f`, whose invocation on `arg` is recorded. -/
def call_free_f {α : Type} (free_f : Option Nat) (m : Mem α) (arg : Addr) : Mem α :=
  match free_f with
  | none => m
  | some f => m.log (Event.call f arg)

/-! ## Lists -/

/-- The list cell `fx_list_simple_data_t`: count, tail, head. -/
structure fx_list_simple_data_t where
  rc : Int
  tl : Addr
  hd : Int
  deriving DecidableEq

instance : HasRc fx_list_simple_data_t where
  rc c := c.rc
  set_rc c v := { c with rc := v }

/-- The `while(l)` loop of `FX_FREE_LIST_IMPL`; one unit of fuel per evaluation
of the loop condition. The payload destructor receives `&l->hd`, identified here
by the cell `l` it belongs to. -/
def FX_FREE_LIST_IMPL_loop (hd_free_f : Option Nat) :
    Nat → Mem fx_list_simple_data_t → Addr → Option (Mem fx_list_simple_data_t)
  | 0, _, _ => none
  | fuel + 1, m, l =>
    if l = 0 then some m
    else match FX_DECREF m l with
      | none => none
      | some (old, m1) =>
        if old > 1 then some m1
        else match m1.cells l with
          | none => none
          | some c =>
            let tl := c.tl
            let m2 := call_free_f hd_free_f m1 l
            match fx_free m2 l with
            | none => none
            | some m3 => FX_FREE_LIST_IMPL_loop hd_free_f fuel m3 tl

/-- `FX_FREE_LIST_IMPL(typ, hd_free_f)` applied to the handle `*dst`; returns the
memory and the new value of `*dst`. -/
def FX_FREE_LIST_IMPL (hd_free_f : Option Nat) (fuel : Nat)
    (m : Mem fx_list_simple_data_t) (dst : Addr) :
    Option (Mem fx_list_simple_data_t × Addr) :=
  match FX_FREE_LIST_IMPL_loop hd_free_f fuel m dst with
  | none => none
  | some m1 => some (m1, 0)

/-- `fx_free_list_simple` is `FX_FREE_LIST_IMPL(fx_list_simple_t, FX_NOP)`; the
handle that the body of the function names `dst` is its argument `pl`. -/
def fx_free_list_simple (fuel : Nat) (m : Mem fx_list_simple_data_t) (pl : Addr) :
    Option (Mem fx_list_simple_data_t × Addr) :=
  FX_FREE_LIST_IMPL none fuel m pl

/-- `owned_chain cells as p nxt`: starting at `p`, the cells at the addresses
`as` are live, non-null, each has count exactly 1, each links to the next, and
the last one links to `nxt`. -/
def owned_chain (cells : Addr → Option fx_list_simple_data_t) :
    List Addr → Addr → Addr → Bool
  | [], p, nxt => decide (p = nxt)
  | a :: as, p, nxt =>
    decide (p = a) && decide (a ≠ 0) &&
      (match cells a with
       | none => false
       | some c => decide (c.rc = 1) && owned_chain cells as c.tl nxt)

/-- The cell following an owned chain is absent (`nxt` is null) or is a live
cell that has other owners (count above 1, within the range of `int_`). -/
def shared_or_nil (cells : Addr → Option fx_list_simple_data_t) (nxt : Addr) : Bool :=
  decide (nxt = 0) ||
    (match cells nxt with
     | none => false
     | some c => decide (1 < c.rc) && decide (c.rc ≤ INTPTR_MAX))

/-- The actions of an injected payload function (destructor or copy function)
called on the head of the cell `a`: nothing is recorded for `FX_NOP` and
`FX_COPY_SIMPLE`. -/
def hd_free_events (hd_free_f : Option Nat) (a : Addr) : List Event :=
  match hd_free_f with
  | none => []
  | some f => [Event.call f a]

/-- The actions of releasing the cells `as` one after the other: for each cell
the decrement from 1 to 0, the payload destructor, the release of the cell. -/
def release_events (hd_free_f : Option Nat) : List Addr → List Event
  | [] => []
  | a :: as =>
    [Event.xadd a 1 0] ++ hd_free_events hd_free_f a ++ [Event.free a] ++
      release_events hd_free_f as

/-- The memory after one full iteration of the release loop on the cell `a`. -/
def release_one (hd_free_f : Option Nat) (m : Mem fx_list_simple_data_t) (a : Addr) :
    Mem fx_list_simple_data_t :=
  { cells := fun q => if q = a then none else m.cells q
    trace := m.trace ++ ([Event.xadd a 1 0] ++ hd_free_events hd_free_f a ++ [Event.free a]) }

/-- The single decrement performed on the first cell that is still shared. -/
def stop_events (cells : Addr → Option fx_list_simple_data_t) (nxt : Addr) : List Event :=
  if nxt = 0 then []
  else match cells nxt with
    | none => []
    | some c => [Event.xadd nxt c.rc (c.rc - 1)]

/-- The cells after releasing the owned chain `as` that ends at `nxt`. -/
def cells_after_release (cells : Addr → Option fx_list_simple_data_t)
    (as : List Addr) (nxt : Addr) : Addr → Option fx_list_simple_data_t :=
  fun q =>
    if q ∈ as then none
    else if q = nxt ∧ nxt ≠ 0 then
      (match cells nxt with
       | none => none
       | some c => some { c with rc := c.rc - 1 })
    else cells q

/-- The addresses released by `fx_free`, in order. -/
def freed_of : List Event → List Addr
  | [] => []
  | Event.free p :: es => p :: freed_of es
  | _ :: es => freed_of es

/-- The arguments of the calls through the function pointer `f`, in order. -/
def calls_of (f : Nat) : List Event → List Addr
  | [] => []
  | Event.call g a :: es => if g = f then a :: calls_of f es else calls_of f es
  | _ :: es => calls_of f es

/-- The addresses whose count was updated by `FX_XADD`, in order. -/
def xadds_of : List Event → List Addr
  | [] => []
  | Event.xadd p _ _ :: es => p :: xadds_of es
  | _ :: es => xadds_of es

/-- The list `A -> B -> C -> nil` at the addresses 1, 2, 3, with a second handle
held on `B`. -/
def list_ABC : Mem fx_list_simple_data_t :=
  { cells := fun q =>
      if q = 1 then some ⟨1, 2, 10⟩
      else if q = 2 then some ⟨2, 3, 20⟩
      else if q = 3 then some ⟨1, 0, 30⟩
      else none
    trace := [] }

/-! ## Reference-counted cells -/

/-- `fx_free_ptr(pp)` for an object of any family; `p` is the handle `*pp_`, the
result holds the memory and the new value of the handle. -/
def fx_free_ptr {α : Type} [HasRc α] (m : Mem α) (p : Addr) : Option (Mem α × Addr) :=
  if p = 0 then some (m, 0)
  else match FX_DECREF m p with
    | none => none
    | some (old, m1) =>
      if old = 1 then
        match fx_free m1 p with
        | none => none
        | some m2 => some (m2, 0)
      else some (m1, 0)

/-! ## References -/

/-- The boxed cell `fx_ref_simple_data_t` of `ficus.impl.h`: count, payload. -/
structure fx_ref_simple_data_t where
  rc : Int
  data : Int
  deriving DecidableEq

instance : HasRc fx_ref_simple_data_t where
  rc c := c.rc
  set_rc c v := { c with rc := v }

/-- `FX_FREE_REF_IMPL(typ, arg_free_f)` applied to the handle `*dst`. The payload
destructor receives `&r->data`, identified here by the cell `r`. -/
def FX_FREE_REF_IMPL (arg_free_f : Option Nat) (m : Mem fx_ref_simple_data_t) (dst : Addr) :
    Option (Mem fx_ref_simple_data_t × Addr) :=
  let r := dst
  if r = 0 then some (m, 0)
  else match FX_DECREF m r with
    | none => none
    | some (old, m1) =>
      if old = 1 then
        match fx_free (call_free_f arg_free_f m1 r) r with
        | none => none
        | some m2 => some (m2, 0)
      else some (m1, 0)

/-- `fx_free_ref_simple` is `FX_FREE_REF_IMPL(fx_ref_simple_t, FX_NOP)`; the
handle that the body of the function names `dst` is its argument `pr`. -/
def fx_free_ref_simple (m : Mem fx_ref_simple_data_t) (pr : Addr) :
    Option (Mem fx_ref_simple_data_t × Addr) :=
  FX_FREE_REF_IMPL none m pr

/-! ## Exceptions -/

/-- The payload header `fx_exndata_t`: count and injected destructor. -/
structure fx_exndata_t where
  rc : Int
  free_f : Nat
  deriving DecidableEq

instance : HasRc fx_exndata_t where
  rc c := c.rc
  set_rc c v := { c with rc := v }

/-- The exception value `fx_exn_t`: tag and payload pointer. -/
structure fx_exn_t where
  tag : Int
  data : Addr
  deriving DecidableEq

/-- `fx_free_exn(exn)`. The destructor `exn->data->free_f` is injected code; its
call on `exn->data` is recorded. -/
def fx_free_exn (m : Mem fx_exndata_t) (exn : fx_exn_t) :
    Option (Mem fx_exndata_t × fx_exn_t) :=
  if exn.data = 0 then some (m, exn)
  else match FX_DECREF m exn.data with
    | none => none
    | some (old, m1) =>
      if old = 1 then
        match m1.cells exn.data with
        | none => none
        | some d => some (m1.log (Event.call d.free_f exn.data), { exn with data := 0 })
      else some (m1, { exn with data := 0 })

/-! ## Function pointers -/

/-- The closure environment header `fx_fv_t` (`base.rc`, `base.free_f`). -/
structure fx_fv_t where
  rc : Int
  free_f : Nat
  deriving DecidableEq

instance : HasRc fx_fv_t where
  rc c := c.rc
  set_rc c v := { c with rc := v }

/-- The closure `fx_fp_t`: code pointer and environment. -/
structure fx_fp_t where
  fp : Nat
  fv : Addr
  deriving DecidableEq

/-- `FX_FREE_FP(f)`: `if((f)->fv) { (f)->fv->base.free_f((f)->fv); (f)->fv=0; }`. -/
def FX_FREE_FP (m : Mem fx_fv_t) (f : fx_fp_t) : Option (Mem fx_fv_t × fx_fp_t) :=
  if f.fv = 0 then some (m, f)
  else match m.cells f.fv with
    | none => none
    | some e => some (m.log (Event.call e.free_f f.fv), { f with fv := 0 })

/-- `fx_free_fp(fp)` is `FX_FREE_FP(fp_)`. -/
def fx_free_fp (m : Mem fx_fv_t) (fp : fx_fp_t) : Option (Mem fx_fv_t × fx_fp_t) :=
  FX_FREE_FP m fp

/-! ## C pointers -/

/-- The foreign handle `fx_cptr_data_t`: count, destructor, raw pointer. -/
structure fx_cptr_data_t where
  rc : Int
  free_f : Nat
  ptr : Addr
  deriving DecidableEq

instance : HasRc fx_cptr_data_t where
  rc c := c.rc
  set_rc c v := { c with rc := v }

/-- `fx_free_cptr(cptr)`; `p` is the handle `*cptr`. The statement
`free_f(*(cptr)->ptr)` calls the destructor kept in the wrapper on the raw
pointer kept in the wrapper. The assignment `*cptr = 0` is inside the `if`. -/
def fx_free_cptr (m : Mem fx_cptr_data_t) (p : Addr) : Option (Mem fx_cptr_data_t × Addr) :=
  if p = 0 then some (m, p)
  else match FX_DECREF m p with
    | none => none
    | some (old, m1) =>
      if old = 1 then
        match m1.cells p with
        | none => none
        | some d =>
          match fx_free (m1.log (Event.call d.free_f d.ptr)) p with
          | none => none
          | some m2 => some (m2, 0)
      else some (m1, p)

/-! ## Strings -/

/-- The string descriptor `fx_str_t`: pointer to the count cell, pointer to the
code points, length. -/
structure fx_str_t where
  rc : Addr
  data : Addr
  length : Int
  deriving DecidableEq

/-- One string allocation: the count cell, directly followed by the code points. -/
structure str_block where
  rc : Int
  chars : List Nat
  deriving DecidableEq

instance : HasRc str_block where
  rc c := c.rc
  set_rc c v := { c with rc := v }

/-- `sizeof(int_)`, the size of the count cell, and `sizeof(char_)`. -/
def SIZEOF_INT_ : Nat := 8
def SIZEOF_CHAR_ : Nat := 4

/-- `fx_free_str(str)`; the result holds the memory and the descriptor. -/
def fx_free_str (m : Mem str_block) (str : fx_str_t) : Option (Mem str_block × fx_str_t) :=
  if str.rc = 0 then some (m, str)
  else match FX_DECREF m str.rc with
    | none => none
    | some (old, m1) =>
      if old = 1 then
        match fx_free m1 str.rc with
        | none => none
        | some m2 => some (m2, { str with rc := 0 })
      else some (m1, { str with rc := 0 })

/-- `fx_copy_str(src, dst)`; the result holds the memory, the source descriptor
and the destination descriptor after the call. `FX_INCREF(src->rc)` expands to
`FX_XADD(&(src->rc), 1)`: the addition is applied to the pointer field `src->rc`
of the descriptor, read as an `intptr_t`, and not to the count it points to.
Then `*dst = *src`. -/
def fx_copy_str (m : Mem str_block) (src : fx_str_t) : Mem str_block × fx_str_t × fx_str_t :=
  let src1 : fx_str_t := { src with rc := (src.rc + 1) % 2 ^ 64 }
  (m, src1, src1)

/-- `fx_malloc(sz, pptr_)` of `ficus.impl.h`: `*pptr = malloc(sz)` and the status.
`ret` is the pointer returned by `malloc` (`0` on failure) and `fresh` the
indeterminate contents of the new block. `FX_OUT_OF_MEM_ERR` is not declared in
the sources and is a parameter. The result is the status, the memory and `*pptr`. -/
def fx_malloc {α : Type} (FX_OUT_OF_MEM_ERR : Int) (m : Mem α) (_sz : Nat)
    (ret : Addr) (fresh : α) : Int × Mem α × Addr :=
  if ret ≠ 0 then (FX_OK, m.write ret (some fresh), ret)
  else (FX_OUT_OF_MEM_ERR, m, 0)

/-- The contents of a block of `total` bytes returned by `malloc` for a string:
nothing is initialised, the count cell holds `junk_rc` and the code point `i`
holds `junk i`. -/
def fresh_str_block (total : Nat) (junk_rc : Int) (junk : Nat → Nat) : str_block :=
  { rc := junk_rc
    chars := (List.range ((total - SIZEOF_INT_) / SIZEOF_CHAR_)).map junk }

/-- `fx_make_str(str, strdata, length)`. `strdata` is `none` for a null pointer
and `some buf` for a pointer to the code points `buf`. `ret`, `junk_rc` and `junk`
describe what `malloc` returns. `FX_CALL` is used without a label: a negative
status leaves the function with that status. A `memcpy` of zero bytes does
nothing; one that reads past the source or writes past the block is undefined.
The result is the status, the memory and the descriptor `*str`. -/
def fx_make_str (FX_OUT_OF_MEM_ERR : Int) (m : Mem str_block) (str : fx_str_t)
    (strdata : Option (List Nat)) (length : Int)
    (ret : Addr) (junk_rc : Int) (junk : Nat → Nat) :
    Option (Int × Mem str_block × fx_str_t) :=
  let length := if strdata.isNone then 0 else length
  let total := ((SIZEOF_INT_ + length * SIZEOF_CHAR_) % 2 ^ 64).toNat
  match fx_malloc FX_OUT_OF_MEM_ERR m total ret (fresh_str_block total junk_rc junk) with
  | (fx_status, m1, rc) =>
    let str1 : fx_str_t := { str with rc := rc }
    if fx_status ≥ 0 then
      let str2 : fx_str_t := { str1 with data := rc + SIZEOF_INT_, length := length }
      let n := ((length * SIZEOF_CHAR_) % 2 ^ 64).toNat / SIZEOF_CHAR_
      if n = 0 then some (FX_OK, m1, str2)
      else match strdata, m1.cells rc with
        | some buf, some b =>
          if n ≤ buf.length ∧ n ≤ b.chars.length then
            some (FX_OK, m1.write rc (some { b with chars := buf.take n ++ b.chars.drop n }), str2)
          else none
        | _, _ => none
    else some (fx_status, m1, str1)

/-- The code points of the string described by `str`: the first `length` code
points stored at `str.data`, when `str.data` is the address directly after the
count cell of a live block. -/
def str_contents (m : Mem str_block) (str : fx_str_t) : Option (List Nat) :=
  match m.cells str.rc with
  | none => none
  | some b =>
    if str.data = str.rc + SIZEOF_INT_ ∧ 0 ≤ str.length ∧ str.length.toNat ≤ b.chars.length then
      some (b.chars.take str.length.toNat)
    else none

/-! ## The status protocol -/

/-- Where control goes after a status check. -/
inductive Ctl where
  | fall_through
  | do_break
  | do_continue
  | goto_label
  | goto_br_label
  deriving DecidableEq

/-- `FX_CALL(f, label)`: `fx_status` becomes the value of `f`. -/
def FX_CALL (f : Int) : Int × Ctl :=
  if f ≥ 0 then (f, Ctl.fall_through) else (f, Ctl.goto_label)

/-- `FX_CHECK_EXN_BREAK_CONTINUE(label)`: the new `fx_status` and the transfer. -/
def FX_CHECK_EXN_BREAK_CONTINUE (fx_status : Int) : Int × Ctl :=
  if fx_status ≥ 0 then (fx_status, Ctl.fall_through)
  else if fx_status = FX_EXN_Break then (FX_OK, Ctl.do_break)
  else if fx_status = FX_EXN_Continue then (FX_OK, Ctl.do_continue)
  else (fx_status, Ctl.goto_label)

/-- `FX_CHECK_EXN_BREAK_CONTINUE_ND(label, br_label)`. -/
def FX_CHECK_EXN_BREAK_CONTINUE_ND (fx_status : Int) : Int × Ctl :=
  if fx_status ≥ 0 then (fx_status, Ctl.fall_through)
  else if fx_status = FX_EXN_Break then (FX_OK, Ctl.goto_br_label)
  else if fx_status = FX_EXN_Continue then (FX_OK, Ctl.do_continue)
  else (fx_status, Ctl.goto_label)

/-- `FX_CHECK_EXN(label)`. -/
def FX_CHECK_EXN (fx_status : Int) : Int × Ctl :=
  if fx_status ≥ 0 then (fx_status, Ctl.fall_through) else (fx_status, Ctl.goto_label)

/-- How a loop was left: the status, whether control went to the catch label, and
the number of iterations started. -/
structure loop_exit where
  status : Int
  caught : Bool
  iterations : Nat
  deriving DecidableEq

/-- A loop whose body ends with the status check `check`:
`for(...) { body; check }`. Each body maps the status on entry to the status that
reaches the check (`FX_BREAK`, `FX_CONTINUE`, `FX_CALL` and `FX_THROW_FAST` all
set `fx_status` and jump there). `break` and `goto br_label` leave the loop,
`continue` and falling through start the next iteration, `goto label` leaves
the loop for the catch label. -/
def run_loop (check : Int → Int × Ctl) : List (Int → Int) → Int → Nat → loop_exit
  | [], fx_status, n => ⟨fx_status, false, n⟩
  | body :: rest, fx_status, n =>
    match check (body fx_status) with
    | (s, Ctl.fall_through) => run_loop check rest s (n + 1)
    | (s, Ctl.do_continue) => run_loop check rest s (n + 1)
    | (s, Ctl.do_break) => ⟨s, false, n + 1⟩
    | (s, Ctl.goto_br_label) => ⟨s, false, n + 1⟩
    | (s, Ctl.goto_label) => ⟨s, true, n + 1⟩

/-- The body of an outer iteration that consists of an inner loop: the status
that reaches the outer check is the status with which the inner loop was left. -/
def inner_loop_body (check : Int → Int × Ctl) (inner : List (Int → Int)) : Int → Int :=
  fun fx_status => (run_loop check inner fx_status 0).status

/-! ## Copy operations -/

/-- `fx_copy_ptr(src, dst)` for an object of any family; the result holds the
memory and the handle stored in `*dst_`. -/
def fx_copy_ptr {α : Type} [HasRc α] (m : Mem α) (src : Addr) : Option (Mem α × Addr) :=
  if src ≠ 0 then
    match FX_INCREF m src with
    | none => none
    | some (_, m1) => some (m1, src)
  else some (m, src)

/-- `fx_copy_exn(src, dst)`; the result holds the memory and `*dst`. -/
def fx_copy_exn (m : Mem fx_exndata_t) (src : fx_exn_t) : Option (Mem fx_exndata_t × fx_exn_t) :=
  if src.data ≠ 0 then
    match FX_INCREF m src.data with
    | none => none
    | some (_, m1) => some (m1, src)
  else some (m, src)

/-- `fx_copy_cptr(src, dst)`; the result holds the memory and `*dst`. -/
def fx_copy_cptr (m : Mem fx_cptr_data_t) (src : Addr) : Option (Mem fx_cptr_data_t × Addr) :=
  if src ≠ 0 then
    match FX_INCREF m src with
    | none => none
    | some (_, m1) => some (m1, src)
  else some (m, src)

/-- `FX_COPY_FP(src, dst)`:
`{ if((src)->fv) FX_INCREF((src)->fv->base.rc); *(dst) = *(src); }`;
the result holds the memory and `*dst`. -/
def FX_COPY_FP (m : Mem fx_fv_t) (src : fx_fp_t) : Option (Mem fx_fv_t × fx_fp_t) :=
  if src.fv ≠ 0 then
    match FX_INCREF m src.fv with
    | none => none
    | some (_, m1) => some (m1, src)
  else some (m, src)

/-- The count field behaves as a field: it reads back what was written, a later
write replaces an earlier one, and writing the value it holds changes nothing. -/
class LawfulRc (α : Type) [HasRc α] : Prop where
  rc_set_rc : ∀ (c : α) (v : Int), HasRc.rc (HasRc.set_rc c v) = v
  set_rc_set_rc : ∀ (c : α) (v w : Int), HasRc.set_rc (HasRc.set_rc c v) w = HasRc.set_rc c w
  set_rc_rc : ∀ (c : α), HasRc.set_rc c (HasRc.rc c) = c

instance : LawfulRc fx_list_simple_data_t where
  rc_set_rc _ _ := rfl
  set_rc_set_rc _ _ _ := rfl
  set_rc_rc _ := rfl

instance : LawfulRc fx_ref_simple_data_t where
  rc_set_rc _ _ := rfl
  set_rc_set_rc _ _ _ := rfl
  set_rc_rc _ := rfl

instance : LawfulRc fx_exndata_t where
  rc_set_rc _ _ := rfl
  set_rc_set_rc _ _ _ := rfl
  set_rc_rc _ := rfl

instance : LawfulRc fx_fv_t where
  rc_set_rc _ _ := rfl
  set_rc_set_rc _ _ _ := rfl
  set_rc_rc _ := rfl

instance : LawfulRc fx_cptr_data_t where
  rc_set_rc _ _ := rfl
  set_rc_set_rc _ _ _ := rfl
  set_rc_rc _ := rfl

instance : LawfulRc str_block where
  rc_set_rc _ _ := rfl
  set_rc_set_rc _ _ _ := rfl
  set_rc_rc _ := rfl

/-! ## Make operations -/

/-- `FX_DECL_AND_MALLOC(ptrtyp, ptr, sz)`:
`ptrtyp ptr = (ptrtyp)fx_malloc(sz); if(!ptr) return FX_EXN_OutOfMemError`, with
the `fx_malloc` declared in `ficus.h`, which returns the pointer. `ret` is that
pointer (`0` on failure) and `fresh` the indeterminate contents of the new block.
An error is the status with which the enclosing function returns; otherwise the
memory and `ptr`. -/
def FX_DECL_AND_MALLOC {α : Type} (m : Mem α) (ret : Addr) (fresh : α) :
    Except Int (Mem α × Addr) :=
  if ret = 0 then Except.error FX_EXN_OutOfMemError
  else Except.ok (m.write ret (some fresh), ret)

/-- A call of an injected copy function with destination `dst`: `none` is
`FX_COPY_SIMPLE`, a plain assignment; `some f` is the function `f`, whose
invocation is recorded. -/
def call_copy_f {α : Type} (copy_f : Option Nat) (m : Mem α) (dst : Addr) : Mem α :=
  match copy_f with
  | none => m
  | some f => m.log (Event.call f dst)

/-- `FX_MAKE_LIST_IMPL(typ, hd_copy_f)` in a function with the arguments `hd`,
`tl`, `addref_tl` and `fx_result`; `h` is the value of `*fx_result` on entry. The
result is the status, the memory and `*fx_result`. -/
def FX_MAKE_LIST_IMPL (hd_copy_f : Option Nat) (m : Mem fx_list_simple_data_t)
    (hd : Int) (tl : Addr) (addref_tl : Bool) (h : Addr)
    (ret : Addr) (fresh : fx_list_simple_data_t) :
    Option (Int × Mem fx_list_simple_data_t × Addr) :=
  match FX_DECL_AND_MALLOC m ret fresh with
  | Except.error fx_status => some (fx_status, m, h)
  | Except.ok (m1, l) =>
    let m2 := m1.write l (some { fresh with rc := 1, tl := tl })
    let m3 := if addref_tl = true ∧ tl ≠ 0 then (FX_INCREF m2 tl).map (fun r => r.2) else some m2
    match m3 with
    | none => none
    | some m3 =>
      match m3.cells l with
      | none => none
      | some c =>
        some (FX_OK, call_copy_f hd_copy_f (m3.write l (some { c with hd := hd })) l, l)

/-- `FX_MAKE_REF_IMPL(typ, arg_copy_f)` in a function with the arguments `arg`
and `fx_result`; `h` is the value of `*fx_result` on entry. -/
def FX_MAKE_REF_IMPL (arg_copy_f : Option Nat) (m : Mem fx_ref_simple_data_t)
    (arg : Int) (h : Addr) (ret : Addr) (fresh : fx_ref_simple_data_t) :
    Option (Int × Mem fx_ref_simple_data_t × Addr) :=
  match FX_DECL_AND_MALLOC m ret fresh with
  | Except.error fx_status => some (fx_status, m, h)
  | Except.ok (m1, r) =>
    let m2 := m1.write r (some { rc := 1, data := arg })
    some (FX_OK, call_copy_f arg_copy_f m2 r, r)

/-- An exception payload block as `FX_MAKE_EXN_IMPL` lays it out: the header
`base` followed by the argument `arg`. -/
structure fx_exndata_arg_t where
  base : fx_exndata_t
  arg : Int
  deriving DecidableEq

instance : HasRc fx_exndata_arg_t where
  rc c := c.base.rc
  set_rc c v := { c with base := { c.base with rc := v } }

instance : LawfulRc fx_exndata_arg_t where
  rc_set_rc _ _ := rfl
  set_rc_set_rc _ _ _ := rfl
  set_rc_rc _ := rfl

/-- `FX_MAKE_EXN_IMPL(exn_tag, exndata_typ, exndata_free, arg_copy_f)` in a
function with the arguments `arg` and `fx_result`; `e` is the value of
`*fx_result` on entry. -/
def FX_MAKE_EXN_IMPL (exn_tag : Int) (exndata_free : Nat) (arg_copy_f : Option Nat)
    (m : Mem fx_exndata_arg_t) (arg : Int) (e : fx_exn_t)
    (ret : Addr) (fresh : fx_exndata_arg_t) :
    Option (Int × Mem fx_exndata_arg_t × fx_exn_t) :=
  match FX_DECL_AND_MALLOC m ret fresh with
  | Except.error fx_status => some (fx_status, m, e)
  | Except.ok (m1, data) =>
    let m2 := m1.write data (some { base := { rc := 1, free_f := exndata_free }, arg := arg })
    some (FX_OK, call_copy_f arg_copy_f m2 data, { tag := exn_tag, data := data })

/-- `fx_make_cptr(ptr, free_f, fx_result)` of `ficus.impl.h`; `h` is the value of
`*fx_result` on entry. It allocates through the `fx_malloc` of `ficus.impl.h`,
whose failure status `FX_OUT_OF_MEM_ERR` is not declared in the sources and is a
parameter. `FX_CALL` is used without a label: a negative status leaves the
function with that status. -/
def fx_make_cptr (FX_OUT_OF_MEM_ERR : Int) (m : Mem fx_cptr_data_t)
    (ptr : Addr) (free_f : Nat) (h : Addr) (ret : Addr) (fresh : fx_cptr_data_t) :
    Option (Int × Mem fx_cptr_data_t × Addr) :=
  match fx_malloc FX_OUT_OF_MEM_ERR m 24 ret fresh with
  | (fx_status, m1, p) =>
    if fx_status ≥ 0 then
      match m1.cells p with
      | none => none
      | some _ => some (FX_OK, m1.write p (some { rc := 1, free_f := free_f, ptr := ptr }), p)
    else some (fx_status, m1, h)

/-! ## Loops over ranges and array indices -/

/-- `FX_LOOP_COUNT(a, b, delta)`:
`((delta) > 0 ? ((b) - (a) + (delta) - 1) / (delta) : ((a) - (b) - (delta) - 1) / -(delta))`.
The division of C truncates towards zero; the arithmetic is that of the integers
(no overflow). -/
def FX_LOOP_COUNT (a b delta : Int) : Int :=
  if delta > 0 then Int.tdiv (b - a + delta - 1) delta
  else Int.tdiv (a - b - delta - 1) (-delta)

/-- `FX_CHECK_ZERO_STEP(delta, label)`:
`if(delta == 0) ; else { fx_status = FX_EXN_ZeroStepError; goto label; }`. -/
def FX_CHECK_ZERO_STEP (delta : Int) (fx_status : Int) : Int × Ctl :=
  if delta = 0 then (fx_status, Ctl.fall_through)
  else (FX_EXN_ZeroStepError, Ctl.goto_label)

/-- The conversion `(size_t)x` of an `int_`: the value modulo `2 ^ 64`. -/
def to_size_t (x : Int) : Nat := (x % 2 ^ 64).toNat

/-- `FX_CHKIDX1(arr, i, idx)`: `((size_t)(idx) < (size_t)(arr).dim[i].size)`;
`size` is `(arr).dim[i].size`. -/
def FX_CHKIDX1 (size idx : Int) : Bool :=
  decide (to_size_t idx < to_size_t size)

/-- `FX_CHKIDX(ir_check, catch_label)`:
`if(ir_check) ; else { fx_status = FX_EXN_OutOfRangeError; goto catch_label; }`. -/
def FX_CHKIDX (ir_check : Bool) (fx_status : Int) : Int × Ctl :=
  if ir_check = true then (fx_status, Ctl.fall_through)
  else (FX_EXN_OutOfRangeError, Ctl.goto_label)

/-! ## The macro `FX_FREE_REF_SIMPLE` -/

/-- A boxed cell read through a pointer to a list cell, as `fx_free_list_simple`
does when it is handed a boxed cell. Both structures start with the count. The
field `tl` of the list cell occupies the 8 bytes after the count, where the boxed
cell keeps its 4-byte payload `data` followed by 4 bytes of padding (LP64,
little-endian): the pointer read is `data` in its low half and the padding `pad`
in its high half. The field `hd` lies past the boxed cell and is not read by
`FX_NOP`. -/
def ref_as_list (pad : Nat) (c : fx_ref_simple_data_t) : fx_list_simple_data_t :=
  { rc := c.rc
    tl := (c.data % 2 ^ 32).toNat + 2 ^ 32 * pad
    hd := 0 }

/-- `FX_FREE_REF_SIMPLE(pr)`: `if(!*(pr)) ; else fx_free_list_simple(pr)`. The
list release runs on the boxed cells seen as list cells; it only updates counts
and frees, which is carried back to the boxed cells. `p` is the handle `*pr`. -/
def FX_FREE_REF_SIMPLE (pad : Nat) (fuel : Nat) (m : Mem fx_ref_simple_data_t) (p : Addr) :
    Option (Mem fx_ref_simple_data_t × Addr) :=
  if p = 0 then some (m, p)
  else
    match fx_free_list_simple fuel ⟨fun q => (m.cells q).map (ref_as_list pad), m.trace⟩ p with
    | none => none
    | some (ml, h) =>
      some (⟨fun q =>
               match ml.cells q, m.cells q with
               | some l, some c => some { c with rc := l.rc }
               | _, _ => none,
             ml.trace⟩, h)

/-! ## Vocabulary of the statements -/

/-- The cells after one handle on the object at `p`, whose count was `n`, has
been released: the allocation is gone when `n = 1`, and holds `c1` otherwise. -/
def cells_after_decref {α : Type} (cells : Addr → Option α) (p : Addr) (n : Int) (c1 : α) :
    Addr → Option α :=
  fun q => if q = p then (if n = 1 then none else some c1) else cells q

/-- A memory with one string block at address 16 holding `"ab"`, whose count
is `n`. -/
def str_mem (n : Int) : Mem str_block :=
  { cells := fun q => if q = 16 then some ⟨n, [97, 98]⟩ else none
    trace := [] }

/-- The descriptor of the string of `str_mem`. -/
def str_ab : fx_str_t := ⟨16, 24, 2⟩

/-- A memory with one foreign handle at address 5, whose count is `n`, with
destructor 9 and raw pointer 77. -/
def cptr_mem (n : Int) : Mem fx_cptr_data_t :=
  { cells := fun q => if q = 5 then some ⟨n, 9, 77⟩ else none
    trace := [] }

/-- A memory with one exception payload at address 5, whose count is `n`, with
destructor 9. -/
def exn_mem (n : Int) : Mem fx_exndata_t :=
  { cells := fun q => if q = 5 then some ⟨n, 9⟩ else none
    trace := [] }

/-- A memory with one closure environment at address 5, whose count is `n`,
with destructor 9. -/
def fv_mem (n : Int) : Mem fx_fv_t :=
  { cells := fun q => if q = 5 then some ⟨n, 9⟩ else none
    trace := [] }

/-- The cells after a cons of `hd` onto `tl` with `addref_tl` set, the new cell
being at `ret`: the new cell has count 1, and the count of the first cell of a
non-empty `tl` is one higher. -/
def cells_after_cons (cells : Addr → Option fx_list_simple_data_t)
    (hd : Int) (tl ret : Addr) : Addr → Option fx_list_simple_data_t :=
  fun q =>
    if q = ret then some ⟨1, tl, hd⟩
    else if q = tl ∧ tl ≠ 0 then
      (match cells tl with
       | none => none
       | some c => some { c with rc := c.rc + 1 })
    else cells q

/-- The count updates of a cons onto `tl` with `addref_tl` set. -/
def cons_events (cells : Addr → Option fx_list_simple_data_t) (tl : Addr) : List Event :=
  if tl = 0 then []
  else match cells tl with
    | none => []
    | some c => [Event.xadd tl c.rc (c.rc + 1)]

/-- The tail of a cons is the empty list, or its first cell is live with a
count `n ≥ 1` that an increment can follow within `int_` (`n < INTPTR_MAX`). -/
def tail_ok (cells : Addr → Option fx_list_simple_data_t) (tl : Addr) : Bool :=
  decide (tl = 0) ||
    (match cells tl with
     | none => false
     | some c => decide (1 ≤ c.rc) && decide (c.rc < INTPTR_MAX))

/-- `list_chain cells as p`: the list at `p` consists of the live, non-null
cells at the addresses `as`, each linked to the next, the last one linked to
null. Such a chain is finite and reaches null, so it has no cycle. -/
def list_chain (cells : Addr → Option fx_list_simple_data_t) : List Addr → Addr → Bool
  | [], p => decide (p = 0)
  | a :: as, p =>
    decide (p = a) && decide (a ≠ 0) &&
      (match cells a with
       | none => false
       | some c => list_chain cells as c.tl)

/-- The value `v` lies in the half-open range that runs from the start towards
`b` in the direction of `delta`: below `b` for a positive step, above `b` for a
negative one. -/
def in_loop_range (b delta v : Int) : Prop :=
  if delta > 0 then v < b else v > b

/-- A memory with two boxed cells, each with count 1: the box at address 16
holds the value 32 and the box at address 32 holds the value 0. -/
def two_boxes : Mem fx_ref_simple_data_t :=
  { cells := fun q =>
      if q = 16 then some ⟨1, 32⟩
      else if q = 32 then some ⟨1, 0⟩
      else none
    trace := [] }

/-! ## Auxiliary facts -/

theorem wrap_int__of_range (x : Int) (h1 : INTPTR_MIN ≤ x) (h2 : x ≤ INTPTR_MAX) :
    wrap_int_ x = x := by
  unfold wrap_int_
  unfold INTPTR_MIN at h1
  unfold INTPTR_MAX at h2
  have h : (x + 2 ^ 63) % 2 ^ 64 = x + 2 ^ 63 := Int.emod_eq_of_lt (by omega) (by omega)
  rw [h]; ring

theorem owned_chain_congr (c1 c2 : Addr → Option fx_list_simple_data_t) (as : List Addr) :
    ∀ (p nxt : Addr), (∀ a ∈ as, c1 a = c2 a) →
      owned_chain c1 as p nxt = owned_chain c2 as p nxt := by
  induction as with
  | nil => intro p nxt _; rfl
  | cons a as ih =>
    intro p nxt h
    have ha : c1 a = c2 a := h a (List.mem_cons_self a as)
    have hrest : ∀ b ∈ as, c1 b = c2 b := fun b hb => h b (List.mem_cons_of_mem a hb)
    unfold owned_chain
    rw [← ha]
    cases hc : c1 a with
    | none => rfl
    | some c => simp only [ih c.tl nxt hrest]

theorem owned_chain_end_not_mem (cells : Addr → Option fx_list_simple_data_t)
    (as : List Addr) (nxt : Addr) (hn : shared_or_nil cells nxt = true) :
    ∀ (p : Addr), owned_chain cells as p nxt = true → nxt ∉ as := by
  induction as with
  | nil => intro p _; simp
  | cons a as ih =>
    intro p h
    unfold owned_chain at h
    cases hc : cells a with
    | none => simp [hc] at h
    | some c =>
      simp only [hc, Bool.and_eq_true, decide_eq_true_eq] at h
      obtain ⟨⟨_, ha0⟩, hrc, hrest⟩ := h
      have hmem := ih c.tl hrest
      intro hin
      rcases List.mem_cons.mp hin with heq | hin2
      · subst heq
        unfold shared_or_nil at hn
        simp only [hc, Bool.or_eq_true, Bool.and_eq_true, decide_eq_true_eq] at hn
        rcases hn with h0 | ⟨h1, _⟩
        · exact ha0 h0
        · omega
      · exact hmem hin2

theorem owned_chain_unique (cells : Addr → Option fx_list_simple_data_t) (nxt : Addr) :
    ∀ (as bs : List Addr) (p : Addr), nxt ∉ as → nxt ∉ bs →
      owned_chain cells as p nxt = true → owned_chain cells bs p nxt = true → as = bs := by
  intro as
  induction as with
  | nil =>
    intro bs p _ hb h1 h2
    cases bs with
    | nil => rfl
    | cons b bs =>
      exfalso
      simp only [owned_chain, decide_eq_true_eq] at h1
      unfold owned_chain at h2
      simp only [Bool.and_eq_true, decide_eq_true_eq] at h2
      apply hb
      rw [← h1, h2.1.1]
      exact List.mem_cons_self b bs
  | cons a as ih =>
    intro bs p ha hb h1 h2
    cases bs with
    | nil =>
      exfalso
      simp only [owned_chain, decide_eq_true_eq] at h2
      unfold owned_chain at h1
      simp only [Bool.and_eq_true, decide_eq_true_eq] at h1
      apply ha
      rw [← h2, h1.1.1]
      exact List.mem_cons_self a as
    | cons b bs =>
      unfold owned_chain at h1 h2
      simp only [Bool.and_eq_true, decide_eq_true_eq] at h1 h2
      have hab : a = b := by rw [← h1.1.1, h2.1.1]
      subst hab
      cases hc : cells a with
      | none => simp [hc] at h1
      | some c =>
        simp only [hc, Bool.and_eq_true, decide_eq_true_eq] at h1 h2
        have := ih bs c.tl (fun h => ha (List.mem_cons_of_mem a h))
          (fun h => hb (List.mem_cons_of_mem a h)) h1.2.2 h2.2.2
        rw [this]

theorem owned_chain_suffix (cells : Addr → Option fx_list_simple_data_t) (nxt : Addr) :
    ∀ (as : List Addr) (p a : Addr), owned_chain cells as p nxt = true → a ∈ as →
      ∃ l1 l2, as = l1 ++ a :: l2 ∧ owned_chain cells (a :: l2) a nxt = true := by
  intro as
  induction as with
  | nil => intro p a _ h; simp at h
  | cons b bs ih =>
    intro p a h hin
    rcases List.mem_cons.mp hin with heq | hin2
    · subst heq
      refine ⟨[], bs, rfl, ?_⟩
      unfold owned_chain at h ⊢
      simp only [Bool.and_eq_true, decide_eq_true_eq] at h ⊢
      exact ⟨⟨trivial, h.1.2⟩, h.2⟩
    · unfold owned_chain at h
      cases hc : cells b with
      | none => simp [hc] at h
      | some c =>
        simp only [hc, Bool.and_eq_true, decide_eq_true_eq] at h
        obtain ⟨l1, l2, hl, hch⟩ := ih c.tl a h.2.2 hin2
        exact ⟨b :: l1, l2, by rw [hl]; rfl, hch⟩

theorem owned_chain_nodup (cells : Addr → Option fx_list_simple_data_t) (nxt : Addr)
    (hn : shared_or_nil cells nxt = true) :
    ∀ (as : List Addr) (p : Addr), owned_chain cells as p nxt = true → as.Nodup := by
  intro as
  induction as with
  | nil => intro p _; exact List.nodup_nil
  | cons a as ih =>
    intro p h
    have hend := owned_chain_end_not_mem cells (a :: as) nxt hn p h
    have hfull : owned_chain cells (a :: as) a nxt = true := by
      unfold owned_chain at h ⊢
      simp only [Bool.and_eq_true, decide_eq_true_eq] at h ⊢
      exact ⟨⟨trivial, h.1.2⟩, h.2⟩
    unfold owned_chain at h
    cases hc : cells a with
    | none => simp [hc] at h
    | some c =>
      simp only [hc, Bool.and_eq_true, decide_eq_true_eq] at h
      refine List.nodup_cons.mpr ⟨?_, ih c.tl h.2.2⟩
      intro hin
      obtain ⟨l1, l2, hl, hch⟩ := owned_chain_suffix cells nxt as c.tl a h.2.2 hin
      have hend2 : nxt ∉ a :: l2 := by
        intro hx
        apply hend
        rw [hl]
        exact List.mem_cons_of_mem a (List.mem_append_right l1 hx)
      have heq := owned_chain_unique cells nxt (a :: as) (a :: l2) a hend hend2 hfull hch
      have hlen : (a :: as).length = (a :: l2).length := by rw [heq]
      rw [hl] at hlen
      simp at hlen
      omega

theorem free_list_loop_step (hd_free_f : Option Nat) (fuel : Nat)
    (m : Mem fx_list_simple_data_t) (a : Addr) (c : fx_list_simple_data_t)
    (ha : a ≠ 0) (hc : m.cells a = some c) (hrc : c.rc = 1) :
    FX_FREE_LIST_IMPL_loop hd_free_f (fuel + 1) m a =
      FX_FREE_LIST_IMPL_loop hd_free_f fuel (release_one hd_free_f m a) c.tl := by
  have hw : wrap_int_ (c.rc + -1) = 0 := by rw [hrc]; decide
  have hle : ¬ (c.rc > 1) := by omega
  have hm : (⟨fun q => if q = a then none else if q = a then
        some ({ c with rc := 0 } : fx_list_simple_data_t) else m.cells q,
        m.trace ++ [Event.xadd a c.rc 0] ++ hd_free_events hd_free_f a ++ [Event.free a]⟩ :
        Mem fx_list_simple_data_t) = release_one hd_free_f m a := by
    unfold release_one
    rw [hrc]
    congr 1
    · funext q
      by_cases hq : q = a <;> simp [hq]
    · simp [List.append_assoc]
  rw [← hm]
  conv_lhs => unfold FX_FREE_LIST_IMPL_loop
  cases hd_free_f <;>
    simp [ha, FX_DECREF, FX_XADD, hc, HasRc.rc, HasRc.set_rc, hle, hw, Mem.write, Mem.log,
      call_free_f, fx_free, hd_free_events]

theorem free_list_loop_stop (hd_free_f : Option Nat) (fuel : Nat)
    (m : Mem fx_list_simple_data_t) (nxt : Addr)
    (hsh : shared_or_nil m.cells nxt = true) :
    FX_FREE_LIST_IMPL_loop hd_free_f (fuel + 1) m nxt =
      some ⟨cells_after_release m.cells [] nxt, m.trace ++ stop_events m.cells nxt⟩ := by
  unfold FX_FREE_LIST_IMPL_loop
  obtain ⟨cells, trace⟩ := m
  by_cases h0 : nxt = 0
  · subst h0
    have : cells_after_release cells [] 0 = cells := by
      funext q; simp [cells_after_release]
    simp [this, stop_events]
  · unfold shared_or_nil at hsh
    simp only at hsh
    cases hc : cells nxt with
    | none => simp [hc, h0] at hsh
    | some c =>
      simp only [hc, h0, decide_False, Bool.false_or, Bool.and_eq_true,
        decide_eq_true_eq] at hsh
      have hw : wrap_int_ (c.rc + -1) = c.rc - 1 :=
        wrap_int__of_range _ (by unfold INTPTR_MIN; omega) (by omega)
      have hcells : cells_after_release cells [] nxt =
          fun q => if q = nxt then some ({ c with rc := c.rc - 1 } : fx_list_simple_data_t)
            else cells q := by
        funext q
        by_cases hq : q = nxt
        · subst hq; simp [cells_after_release, hc, h0]
        · simp [cells_after_release, hq]
      simp [h0, FX_DECREF, FX_XADD, hc, HasRc.rc, HasRc.set_rc, hw, hsh.1, Mem.write,
        Mem.log, stop_events, hcells]

theorem free_list_loop_spec (hd_free_f : Option Nat) :
    ∀ (as : List Addr) (fuel : Nat) (m : Mem fx_list_simple_data_t) (p nxt : Addr),
      owned_chain m.cells as p nxt = true → shared_or_nil m.cells nxt = true →
      nxt ∉ as → as.Nodup → as.length < fuel →
      FX_FREE_LIST_IMPL_loop hd_free_f fuel m p =
        some ⟨cells_after_release m.cells as nxt,
              m.trace ++ release_events hd_free_f as ++ stop_events m.cells nxt⟩ := by
  intro as
  induction as with
  | nil =>
    intro fuel m p nxt hch hsh _ _ hfuel
    obtain ⟨f, rfl⟩ : ∃ f, fuel = f + 1 := ⟨fuel - 1, by simp at hfuel; omega⟩
    simp only [owned_chain, decide_eq_true_eq] at hch
    subst hch
    rw [free_list_loop_stop hd_free_f f m p hsh]
    simp [release_events]
  | cons a as ih =>
    intro fuel m p nxt hch hsh hnin hnd hfuel
    obtain ⟨f, rfl⟩ : ∃ f, fuel = f + 1 := ⟨fuel - 1, by simp at hfuel; omega⟩
    have hfuel2 : as.length < f := by simp at hfuel; omega
    unfold owned_chain at hch
    cases hc : m.cells a with
    | none => simp [hc] at hch
    | some c =>
      simp only [hc, Bool.and_eq_true, decide_eq_true_eq] at hch
      obtain ⟨⟨hpa, ha0⟩, hrc, hrest⟩ := hch
      subst hpa
      have hnd2 := List.nodup_cons.mp hnd
      have hnxt_ne : nxt ≠ p := fun h => hnin (h ▸ List.mem_cons_self _ _)
      have hnin2 : nxt ∉ as := fun h => hnin (List.mem_cons_of_mem _ h)
      have hcells : ∀ b ∈ as, (release_one hd_free_f m p).cells b = m.cells b := by
        intro b hb
        have : b ≠ p := fun h => hnd2.1 (h ▸ hb)
        simp [release_one, this]
      have hnx : (release_one hd_free_f m p).cells nxt = m.cells nxt := by
        simp [release_one, hnxt_ne]
      have hch3 := (owned_chain_congr _ m.cells as c.tl nxt hcells).trans hrest
      have hsh3 : shared_or_nil (release_one hd_free_f m p).cells nxt = true := by
        unfold shared_or_nil at hsh ⊢
        rw [hnx]; exact hsh
      rw [free_list_loop_step hd_free_f f m p c ha0 hc hrc,
        ih f (release_one hd_free_f m p) c.tl nxt hch3 hsh3 hnin2 hnd2.2 hfuel2]
      have hst : stop_events (release_one hd_free_f m p).cells nxt = stop_events m.cells nxt := by
        unfold stop_events
        rw [hnx]
      rw [hst]
      simp only [Option.some.injEq, Mem.mk.injEq]
      constructor
      · funext q
        by_cases hq : q = p
        · subst hq
          have hqn : ¬ (q = nxt ∧ nxt ≠ 0) := fun h => hnxt_ne h.1.symm
          simp [cells_after_release, hnd2.1, hqn, release_one]
        · by_cases hqa : q ∈ as
          · simp [cells_after_release, hq, hqa]
          · by_cases hqn : q = nxt
            · subst hqn
              simp [cells_after_release, hq, hqa, release_one]
            · simp [cells_after_release, hq, hqa, hqn, release_one]
      · simp [release_one, release_events, List.append_assoc]

theorem freed_of_append (xs ys : List Event) :
    freed_of (xs ++ ys) = freed_of xs ++ freed_of ys := by
  induction xs with
  | nil => rfl
  | cons e es ih => cases e <;> simp [freed_of, ih]

theorem calls_of_append (f : Nat) (xs ys : List Event) :
    calls_of f (xs ++ ys) = calls_of f xs ++ calls_of f ys := by
  induction xs with
  | nil => rfl
  | cons e es ih =>
    cases e with
    | call g a => by_cases hg : g = f <;> simp [calls_of, ih, hg]
    | xadd p o n => simp [calls_of, ih]
    | free p => simp [calls_of, ih]

theorem xadds_of_append (xs ys : List Event) :
    xadds_of (xs ++ ys) = xadds_of xs ++ xadds_of ys := by
  induction xs with
  | nil => rfl
  | cons e es ih => cases e <;> simp [xadds_of, ih]

theorem freed_of_release_events (hd_free_f : Option Nat) (as : List Addr) :
    freed_of (release_events hd_free_f as) = as := by
  induction as with
  | nil => rfl
  | cons a as ih =>
    cases hd_free_f <;>
      simp [release_events, hd_free_events, freed_of, freed_of_append, ih]

theorem calls_of_release_events (f : Nat) (as : List Addr) :
    calls_of f (release_events (some f) as) = as := by
  induction as with
  | nil => rfl
  | cons a as ih =>
    simp [release_events, hd_free_events, calls_of, calls_of_append, ih]

theorem xadds_of_release_events (hd_free_f : Option Nat) (as : List Addr) :
    xadds_of (release_events hd_free_f as) = as := by
  induction as with
  | nil => rfl
  | cons a as ih =>
    cases hd_free_f <;>
      simp [release_events, hd_free_events, xadds_of, xadds_of_append, ih]

theorem FX_DECREF_eq {α : Type} [HasRc α] (m : Mem α) (p : Addr) (c : α) (n : Int)
    (hc : m.cells p = some c) (hrc : HasRc.rc c = n) (h1 : 1 ≤ n) (h2 : n ≤ INTPTR_MAX) :
    FX_DECREF m p =
      some (n, ⟨fun q => if q = p then some (HasRc.set_rc c (n - 1)) else m.cells q,
                m.trace ++ [Event.xadd p n (n - 1)]⟩) := by
  have hw : wrap_int_ (n + -1) = n - 1 :=
    wrap_int__of_range _ (by unfold INTPTR_MIN; omega) (by omega)
  simp only [FX_DECREF, FX_XADD, hc, hrc, hw, Mem.write, Mem.log]

theorem fx_free_eq {α : Type} (cells : Addr → Option α) (trace : List Event) (p : Addr) (c : α)
    (hp : p ≠ 0) :
    fx_free (⟨fun q => if q = p then some c else cells q, trace⟩ : Mem α) p =
      some ⟨fun q => if q = p then none else cells q, trace ++ [Event.free p]⟩ := by
  have h : (fun q => if q = p then none else if q = p then some c else cells q) =
      (fun q => if q = p then none else cells q) := by
    funext q
    by_cases hq : q = p <;> simp [hq]
  simp only [fx_free, hp, if_false, if_true, Mem.write, Mem.log, h]

theorem cells_after_decref_one {α : Type} (cells : Addr → Option α) (p : Addr) (c1 : α) :
    cells_after_decref cells p 1 c1 = fun q => if q = p then none else cells q := by
  funext q
  simp [cells_after_decref]

theorem cells_after_decref_shared {α : Type} (cells : Addr → Option α) (p : Addr) (n : Int)
    (c1 : α) (hn : n ≠ 1) :
    cells_after_decref cells p n c1 = fun q => if q = p then some c1 else cells q := by
  funext q
  simp [cells_after_decref, hn]

/-- What the containment argument needs of a loop check: success falls through,
the two control codes are cleared, `break` leaves the loop and `continue`
starts the next iteration. -/
theorem run_loop_contained (check : Int → Int × Ctl)
    (hok : check FX_OK = (FX_OK, Ctl.fall_through))
    (hbrk : check FX_EXN_Break = (FX_OK, Ctl.do_break) ∨
      check FX_EXN_Break = (FX_OK, Ctl.goto_br_label))
    (hcont : check FX_EXN_Continue = (FX_OK, Ctl.do_continue)) :
    ∀ (l : List (Int → Int)) (n : Nat),
      (∀ b ∈ l, ∀ s, b s = FX_OK ∨ b s = FX_EXN_Break ∨ b s = FX_EXN_Continue) →
      (run_loop check l FX_OK n).status = FX_OK ∧ (run_loop check l FX_OK n).caught = false := by
  intro l
  induction l with
  | nil => intro n _; exact ⟨rfl, rfl⟩
  | cons b rest ih =>
    intro n h
    have hrest : ∀ b1 ∈ rest, ∀ s, b1 s = FX_OK ∨ b1 s = FX_EXN_Break ∨ b1 s = FX_EXN_Continue :=
      fun b1 hb1 => h b1 (List.mem_cons_of_mem b hb1)
    rcases h b (List.mem_cons_self b rest) FX_OK with hb | hb | hb
    · simp only [run_loop, hb, hok]
      exact ih (n + 1) hrest
    · rcases hbrk with hk | hk <;> simp only [run_loop, hb, hk, and_self]
    · simp only [run_loop, hb, hcont]
      exact ih (n + 1) hrest

theorem run_loop_nested (check : Int → Int × Ctl)
    (hok : check FX_OK = (FX_OK, Ctl.fall_through))
    (hbrk : check FX_EXN_Break = (FX_OK, Ctl.do_break) ∨
      check FX_EXN_Break = (FX_OK, Ctl.goto_br_label))
    (hcont : check FX_EXN_Continue = (FX_OK, Ctl.do_continue)) :
    ∀ (inners : List (List (Int → Int))) (n : Nat),
      (∀ l ∈ inners, ∀ b ∈ l, ∀ s, b s = FX_OK ∨ b s = FX_EXN_Break ∨ b s = FX_EXN_Continue) →
      run_loop check (inners.map (inner_loop_body check)) FX_OK n =
        ⟨FX_OK, false, n + inners.length⟩ := by
  intro inners
  induction inners with
  | nil => intro n _; rfl
  | cons l rest ih =>
    intro n h
    have hl := (run_loop_contained check hok hbrk hcont l 0
      (h l (List.mem_cons_self l rest))).1
    have hbody : inner_loop_body check l FX_OK = FX_OK := hl
    simp only [List.map_cons, run_loop, hbody, hok]
    rw [ih (n + 1) (fun l1 hl1 => h l1 (List.mem_cons_of_mem l hl1))]
    simp only [List.length_cons, loop_exit.mk.injEq, true_and]
    omega

theorem FX_XADD_eq {α : Type} [HasRc α] (m : Mem α) (p : Addr) (c : α) (n delta : Int)
    (hc : m.cells p = some c) (hrc : HasRc.rc c = n)
    (h1 : INTPTR_MIN ≤ n + delta) (h2 : n + delta ≤ INTPTR_MAX) :
    FX_XADD m p delta =
      some (n, ⟨fun q => if q = p then some (HasRc.set_rc c (n + delta)) else m.cells q,
                m.trace ++ [Event.xadd p n (n + delta)]⟩) := by
  have hw : wrap_int_ (n + delta) = n + delta := wrap_int__of_range _ h1 h2
  simp only [FX_XADD, hc, hrc, hw, Mem.write, Mem.log]

theorem FX_INCREF_eq {α : Type} [HasRc α] (m : Mem α) (p : Addr) (c : α) (n : Int)
    (hc : m.cells p = some c) (hrc : HasRc.rc c = n) (h1 : 1 ≤ n) (h2 : n < INTPTR_MAX) :
    FX_INCREF m p =
      some (n, ⟨fun q => if q = p then some (HasRc.set_rc c (n + 1)) else m.cells q,
                m.trace ++ [Event.xadd p n (n + 1)]⟩) :=
  FX_XADD_eq m p c n 1 hc hrc (by unfold INTPTR_MIN; omega) (by omega)

/-- A decrement of the count that an increment has just raised from `n` to
`n + 1` restores the cells. -/
theorem FX_DECREF_after_incref {α : Type} [HasRc α] [LawfulRc α] (cells : Addr → Option α)
    (trace : List Event) (p : Addr) (c : α) (n : Int)
    (hc : cells p = some c) (hrc : HasRc.rc c = n) (h1 : 1 ≤ n) (h2 : n < INTPTR_MAX) :
    FX_DECREF (⟨fun q => if q = p then some (HasRc.set_rc c (n + 1)) else cells q, trace⟩ : Mem α) p =
      some (n + 1, ⟨cells, trace ++ [Event.xadd p (n + 1) n]⟩) := by
  have h := FX_DECREF_eq (⟨fun q => if q = p then some (HasRc.set_rc c (n + 1)) else cells q,
    trace⟩ : Mem α) p (HasRc.set_rc c (n + 1)) (n + 1) (by simp)
    (LawfulRc.rc_set_rc c (n + 1)) (by omega) (by omega)
  have hn : n + 1 - 1 = n := by omega
  rw [h, hn]
  have hcells : (fun q => if q = p then some (HasRc.set_rc (HasRc.set_rc c (n + 1)) n)
      else if q = p then some (HasRc.set_rc c (n + 1)) else cells q) = cells := by
    funext q
    by_cases hq : q = p
    · subst hq
      rw [if_pos rfl, LawfulRc.set_rc_set_rc, ← hrc, LawfulRc.set_rc_rc, hc]
    · simp [hq]
  simp only [hcells]

theorem make_list_addref_eq (hd_copy_f : Option Nat) (m : Mem fx_list_simple_data_t)
    (hd : Int) (tl h ret : Addr) (fresh : fx_list_simple_data_t)
    (hret : ret ≠ 0) (hfresh : m.cells ret = none) (htl : tail_ok m.cells tl = true) :
    FX_MAKE_LIST_IMPL hd_copy_f m hd tl true h ret fresh =
      some (FX_OK,
        ⟨cells_after_cons m.cells hd tl ret,
         m.trace ++ cons_events m.cells tl ++ hd_free_events hd_copy_f ret⟩, ret) := by
  obtain ⟨cells, trace⟩ := m
  simp only at hfresh htl
  by_cases h0 : tl = 0
  · subst h0
    have hcells : (fun q => if q = ret then some (⟨1, 0, hd⟩ : fx_list_simple_data_t)
        else if q = ret then some { rc := 1, tl := 0, hd := fresh.hd }
        else if q = ret then some fresh else cells q) = cells_after_cons cells hd 0 ret := by
      funext q
      by_cases hq : q = ret <;> simp [cells_after_cons, hq]
    cases hd_copy_f <;>
      simp [FX_MAKE_LIST_IMPL, FX_DECL_AND_MALLOC, hret, Mem.write, Mem.log, call_copy_f,
        cons_events, hd_free_events, hcells]
  · unfold tail_ok at htl
    cases hc : cells tl with
    | none => simp [hc, h0] at htl
    | some c =>
      simp only [hc, h0, decide_False, Bool.false_or, Bool.and_eq_true,
        decide_eq_true_eq] at htl
      have hne : tl ≠ ret := by
        intro he
        rw [he, hfresh] at hc
        exact Option.noConfusion hc
      have hw : wrap_int_ (c.rc + 1) = c.rc + 1 :=
        wrap_int__of_range _ (by unfold INTPTR_MIN; omega) (by omega)
      have hcells : (fun q => if q = ret then some (⟨1, tl, hd⟩ : fx_list_simple_data_t)
          else if q = tl then some { rc := c.rc + 1, tl := c.tl, hd := c.hd }
          else if q = ret then some { rc := 1, tl := tl, hd := fresh.hd }
          else if q = ret then some fresh else cells q) = cells_after_cons cells hd tl ret := by
        funext q
        by_cases hq : q = ret
        · simp [cells_after_cons, hq]
        · by_cases hq2 : q = tl
          · subst hq2
            simp [cells_after_cons, hq, h0, hc]
          · simp [cells_after_cons, hq, hq2]
      cases hd_copy_f <;>
        simp [FX_MAKE_LIST_IMPL, FX_DECL_AND_MALLOC, hret, Mem.write, Mem.log, call_copy_f,
          cons_events, hd_free_events, h0, hne, Ne.symm hne, hc, FX_INCREF, FX_XADD,
          HasRc.rc, HasRc.set_rc, hw, hcells]

theorem freed_of_stop_events (cells : Addr → Option fx_list_simple_data_t) (nxt : Addr) :
    freed_of (stop_events cells nxt) = [] := by
  unfold stop_events
  by_cases h0 : nxt = 0
  · simp [h0, freed_of]
  · cases hc : cells nxt <;> simp [h0, freed_of]

theorem xadds_of_stop_events (cells : Addr → Option fx_list_simple_data_t) (nxt : Addr)
    (h : shared_or_nil cells nxt = true) :
    xadds_of (stop_events cells nxt) = if nxt = 0 then [] else [nxt] := by
  unfold stop_events
  unfold shared_or_nil at h
  by_cases h0 : nxt = 0
  · simp [h0, xadds_of]
  · cases hc : cells nxt with
    | none => simp [hc, h0] at h
    | some c => simp [h0, xadds_of]

theorem cells_after_cons_release (cells : Addr → Option fx_list_simple_data_t)
    (hd : Int) (tl ret : Addr) (hfresh : cells ret = none) (hne : tl ≠ ret) :
    cells_after_release (cells_after_cons cells hd tl ret) [ret] tl = cells := by
  funext q
  by_cases hq : q = ret
  · subst hq
    simp [cells_after_release, hfresh]
  · by_cases hq2 : q = tl
    · subst hq2
      by_cases h0 : q = 0
      · subst h0
        have h0r : ¬ (0 = ret) := hq
        simp [cells_after_release, cells_after_cons, h0r]
      · cases hc : cells q with
        | none => simp [cells_after_release, cells_after_cons, hq, h0, hc]
        | some c => simp [cells_after_release, cells_after_cons, hq, h0, hc]
    · simp [cells_after_release, cells_after_cons, hq, hq2]

theorem list_chain_congr (c1 c2 : Addr → Option fx_list_simple_data_t) (as : List Addr) :
    ∀ (p : Addr), (∀ a ∈ as, c1 a = c2 a) → list_chain c1 as p = list_chain c2 as p := by
  induction as with
  | nil => intro p _; rfl
  | cons a as ih =>
    intro p h
    have ha : c1 a = c2 a := h a (List.mem_cons_self a as)
    have hrest : ∀ b ∈ as, c1 b = c2 b := fun b hb => h b (List.mem_cons_of_mem a hb)
    unfold list_chain
    rw [← ha]
    cases hc : c1 a with
    | none => rfl
    | some c => simp only [ih c.tl hrest]

theorem list_chain_zero_not_mem (cells : Addr → Option fx_list_simple_data_t) :
    ∀ (as : List Addr) (p : Addr), list_chain cells as p = true → (0 : Addr) ∉ as := by
  intro as
  induction as with
  | nil => intro p _; simp
  | cons a as ih =>
    intro p h
    unfold list_chain at h
    cases hc : cells a with
    | none => simp [hc] at h
    | some c =>
      simp only [hc, Bool.and_eq_true, decide_eq_true_eq] at h
      intro hin
      rcases List.mem_cons.mp hin with heq | hin2
      · exact h.1.2 heq.symm
      · exact ih c.tl h.2 hin2

theorem list_chain_unique (cells : Addr → Option fx_list_simple_data_t) :
    ∀ (as bs : List Addr) (p : Addr),
      list_chain cells as p = true → list_chain cells bs p = true → as = bs := by
  intro as
  induction as with
  | nil =>
    intro bs p h1 h2
    cases bs with
    | nil => rfl
    | cons b bs =>
      exfalso
      simp only [list_chain, decide_eq_true_eq] at h1
      unfold list_chain at h2
      simp only [Bool.and_eq_true, decide_eq_true_eq] at h2
      exact h2.1.2 (by rw [← h2.1.1, h1])
  | cons a as ih =>
    intro bs p h1 h2
    cases bs with
    | nil =>
      exfalso
      simp only [list_chain, decide_eq_true_eq] at h2
      unfold list_chain at h1
      simp only [Bool.and_eq_true, decide_eq_true_eq] at h1
      exact h1.1.2 (by rw [← h1.1.1, h2])
    | cons b bs =>
      unfold list_chain at h1 h2
      simp only [Bool.and_eq_true, decide_eq_true_eq] at h1 h2
      have hab : a = b := by rw [← h1.1.1, h2.1.1]
      subst hab
      cases hc : cells a with
      | none => simp [hc] at h1
      | some c =>
        simp only [hc] at h1 h2
        rw [ih bs c.tl h1.2 h2.2]

theorem list_chain_suffix (cells : Addr → Option fx_list_simple_data_t) :
    ∀ (as : List Addr) (p a : Addr), list_chain cells as p = true → a ∈ as →
      ∃ l1 l2, as = l1 ++ a :: l2 ∧ list_chain cells (a :: l2) a = true := by
  intro as
  induction as with
  | nil => intro p a _ h; simp at h
  | cons b bs ih =>
    intro p a h hin
    rcases List.mem_cons.mp hin with heq | hin2
    · subst heq
      refine ⟨[], bs, rfl, ?_⟩
      unfold list_chain at h ⊢
      simp only [Bool.and_eq_true, decide_eq_true_eq] at h ⊢
      exact ⟨⟨trivial, h.1.2⟩, h.2⟩
    · unfold list_chain at h
      cases hc : cells b with
      | none => simp [hc] at h
      | some c =>
        simp only [hc, Bool.and_eq_true, decide_eq_true_eq] at h
        obtain ⟨l1, l2, hl, hch⟩ := ih c.tl a h.2 hin2
        exact ⟨b :: l1, l2, by rw [hl]; rfl, hch⟩

theorem list_chain_nodup (cells : Addr → Option fx_list_simple_data_t) :
    ∀ (as : List Addr) (p : Addr), list_chain cells as p = true → as.Nodup := by
  intro as
  induction as with
  | nil => intro p _; exact List.nodup_nil
  | cons a as ih =>
    intro p h
    have hfull : list_chain cells (a :: as) a = true := by
      unfold list_chain at h ⊢
      simp only [Bool.and_eq_true, decide_eq_true_eq] at h ⊢
      exact ⟨⟨trivial, h.1.2⟩, h.2⟩
    unfold list_chain at h
    cases hc : cells a with
    | none => simp [hc] at h
    | some c =>
      simp only [hc, Bool.and_eq_true, decide_eq_true_eq] at h
      refine List.nodup_cons.mpr ⟨?_, ih c.tl h.2⟩
      intro hin
      obtain ⟨l1, l2, hl, hch⟩ := list_chain_suffix cells as c.tl a h.2 hin
      have heq := list_chain_unique cells (a :: as) (a :: l2) a hfull hch
      have hlen : (a :: as).length = (a :: l2).length := by rw [heq]
      rw [hl] at hlen
      simp at hlen
      omega

theorem free_list_loop_step_le (hd_free_f : Option Nat) (fuel : Nat)
    (m : Mem fx_list_simple_data_t) (a : Addr) (c : fx_list_simple_data_t)
    (ha : a ≠ 0) (hc : m.cells a = some c) (hrc : c.rc ≤ 1) :
    FX_FREE_LIST_IMPL_loop hd_free_f (fuel + 1) m a =
      FX_FREE_LIST_IMPL_loop hd_free_f fuel
        ⟨fun q => if q = a then none else m.cells q,
         m.trace ++ ([Event.xadd a c.rc (wrap_int_ (c.rc + -1))] ++
           hd_free_events hd_free_f a ++ [Event.free a])⟩ c.tl := by
  have hle : ¬ (c.rc > 1) := by omega
  have hm : (fun q => if q = a then none else if q = a then
        some ({ c with rc := wrap_int_ (c.rc + -1) } : fx_list_simple_data_t) else m.cells q) =
      (fun q => if q = a then none else m.cells q) := by
    funext q
    by_cases hq : q = a <;> simp [hq]
  conv_lhs => unfold FX_FREE_LIST_IMPL_loop
  cases hd_free_f <;>
    simp [ha, FX_DECREF, FX_XADD, hc, HasRc.rc, HasRc.set_rc, hle, Mem.write, Mem.log,
      call_free_f, fx_free, hd_free_events, hm]

theorem free_list_loop_stop_gt (hd_free_f : Option Nat) (fuel : Nat)
    (m : Mem fx_list_simple_data_t) (a : Addr) (c : fx_list_simple_data_t)
    (ha : a ≠ 0) (hc : m.cells a = some c) (hrc : 1 < c.rc) :
    FX_FREE_LIST_IMPL_loop hd_free_f (fuel + 1) m a =
      some ⟨fun q => if q = a then some { c with rc := wrap_int_ (c.rc + -1) } else m.cells q,
            m.trace ++ [Event.xadd a c.rc (wrap_int_ (c.rc + -1))]⟩ := by
  have hgt : c.rc > 1 := hrc
  unfold FX_FREE_LIST_IMPL_loop
  simp [ha, FX_DECREF, FX_XADD, hc, HasRc.rc, HasRc.set_rc, hgt, Mem.write, Mem.log]

/-- On a chain that reaches null the release loop returns with every amount of
fuel above the length of the chain, always with the same memory; the cells whose
count it updates are a prefix of the chain, and so are the cells it frees. -/
theorem free_list_loop_terminates (hd_free_f : Option Nat) :
    ∀ (as : List Addr) (m : Mem fx_list_simple_data_t) (p : Addr),
      list_chain m.cells as p = true → as.Nodup →
      ∃ m1 t k j,
        (∀ fuel, as.length < fuel → FX_FREE_LIST_IMPL_loop hd_free_f fuel m p = some m1) ∧
        m1.trace = m.trace ++ t ∧ k ≤ as.length ∧ j ≤ k ∧
        xadds_of t = as.take k ∧ freed_of t = as.take j := by
  intro as
  induction as with
  | nil =>
    intro m p hch _
    simp only [list_chain, decide_eq_true_eq] at hch
    subst hch
    refine ⟨m, [], 0, 0, ?_, by simp, le_refl _, le_refl _, rfl, rfl⟩
    intro fuel hfuel
    obtain ⟨f, rfl⟩ : ∃ f, fuel = f + 1 := ⟨fuel - 1, by simp at hfuel; omega⟩
    simp [FX_FREE_LIST_IMPL_loop]
  | cons a as ih =>
    intro m p hch hnd
    unfold list_chain at hch
    cases hc : m.cells a with
    | none => simp [hc] at hch
    | some c =>
      simp only [hc, Bool.and_eq_true, decide_eq_true_eq] at hch
      obtain ⟨⟨hpa, ha0⟩, hrest⟩ := hch
      subst hpa
      have hnd2 := List.nodup_cons.mp hnd
      by_cases hrc : 1 < c.rc
      · refine ⟨⟨fun q => if q = p then some { c with rc := wrap_int_ (c.rc + -1) }
            else m.cells q, m.trace ++ [Event.xadd p c.rc (wrap_int_ (c.rc + -1))]⟩,
          [Event.xadd p c.rc (wrap_int_ (c.rc + -1))], 1, 0, ?_, rfl, by simp,
          by omega, by simp [xadds_of], by simp [freed_of]⟩
        intro fuel hfuel
        obtain ⟨f, rfl⟩ : ∃ f, fuel = f + 1 := ⟨fuel - 1, by simp at hfuel; omega⟩
        exact free_list_loop_stop_gt hd_free_f f m p c ha0 hc hrc
      · have hle : c.rc ≤ 1 := by omega
        have hcells : ∀ b ∈ as, (fun q => if q = p then none else m.cells q) b = m.cells b := by
          intro b hb
          have : b ≠ p := fun h => hnd2.1 (h ▸ hb)
          simp [this]
        have hch3 := (list_chain_congr _ m.cells as c.tl hcells).trans hrest
        obtain ⟨m1, t, k, j, hrun, htr, hk, hj, hx, hf⟩ := ih
          ⟨fun q => if q = p then none else m.cells q,
            m.trace ++ ([Event.xadd p c.rc (wrap_int_ (c.rc + -1))] ++
              hd_free_events hd_free_f p ++ [Event.free p])⟩ c.tl hch3 hnd2.2
        refine ⟨m1, ([Event.xadd p c.rc (wrap_int_ (c.rc + -1))] ++
              hd_free_events hd_free_f p ++ [Event.free p]) ++ t, k + 1, j + 1, ?_, ?_,
          by simp; omega, by omega, ?_, ?_⟩
        · intro fuel hfuel
          obtain ⟨f, rfl⟩ : ∃ f, fuel = f + 1 := ⟨fuel - 1, by simp at hfuel; omega⟩
          rw [free_list_loop_step_le hd_free_f f m p c ha0 hc hle]
          exact hrun f (by simp at hfuel; omega)
        · rw [htr]; simp [List.append_assoc]
        · cases hd_free_f <;>
            simp [xadds_of_append, xadds_of, hd_free_events, hx]
        · cases hd_free_f <;>
            simp [freed_of_append, freed_of, hd_free_events, hf]

theorem tdiv_count_pos (x d : Int) (hd : 0 < d) (hx : 0 < x) (k : Nat) :
    ((k : Int) * d < x ↔ (k : Int) < Int.tdiv (x + d - 1) d) := by
  rw [Int.tdiv_eq_ediv (by omega) (by omega)]
  have h1 : (k : Int) < (x + d - 1) / d ↔ (k : Int) + 1 ≤ (x + d - 1) / d := by omega
  rw [h1, Int.le_ediv_iff_mul_le hd]
  constructor
  · intro h; nlinarith
  · intro h; nlinarith

theorem tdiv_count_nonpos (x d : Int) (hd : 0 < d) (hx : x ≤ 0) :
    Int.tdiv (x + d - 1) d ≤ 0 := by
  by_cases h : 0 ≤ x + d - 1
  · rw [Int.tdiv_eq_ediv h (by omega)]
    have : (x + d - 1) / d < 1 := by
      rw [Int.ediv_lt_iff_lt_mul hd]; omega
    omega
  · have h2 : x + d - 1 = -(-(x + d - 1)) := by ring
    rw [h2, Int.neg_tdiv]
    have := Int.tdiv_nonneg (a := -(x + d - 1)) (b := d) (by omega) (by omega)
    omega

theorem tdiv_count_spec (x d : Int) (hd : 0 < d) (k : Nat) :
    ((k : Int) * d < x ↔ (k : Int) < max 0 (Int.tdiv (x + d - 1) d)) := by
  by_cases hx : 0 < x
  · have h0 := (tdiv_count_pos x d hd hx 0).mp (by simpa using hx)
    have hmax : max 0 (Int.tdiv (x + d - 1) d) = Int.tdiv (x + d - 1) d :=
      max_eq_right (by simp at h0; omega)
    rw [hmax]
    exact tdiv_count_pos x d hd hx k
  · have hle := tdiv_count_nonpos x d hd (by omega)
    have hmax : max 0 (Int.tdiv (x + d - 1) d) = 0 := max_eq_left hle
    rw [hmax]
    have hk : (0 : Int) ≤ (k : Int) * d := by positivity
    constructor
    · intro h; omega
    · intro h; omega

theorem tdiv_ceil_eq (x d : Int) (hd : 0 < d) (hx : 0 ≤ x) :
    Int.tdiv (x + d - 1) d = ⌈((x : Int) : ℚ) / (d : ℚ)⌉ := by
  rw [Int.tdiv_eq_ediv (by omega) (by omega)]
  symm
  rw [Int.ceil_eq_iff]
  have hdq : (0 : ℚ) < (d : ℚ) := by exact_mod_cast hd
  have hmod := Int.emod_add_ediv (x + d - 1) d
  have hnn := Int.emod_nonneg (x + d - 1) (by omega : d ≠ 0)
  have hlt := Int.emod_lt_of_pos (x + d - 1) hd
  constructor
  · rw [lt_div_iff₀ hdq]
    have : ((x + d - 1) / d - 1) * d < x := by nlinarith
    exact_mod_cast this
  · rw [div_le_iff₀ hdq]
    have : x ≤ ((x + d - 1) / d) * d := by nlinarith
    exact_mod_cast this

theorem loop_count_spec (a b delta : Int) (hd : delta ≠ 0) (k : Nat) :
    in_loop_range b delta (a + k * delta) ↔ (k : Int) < max 0 (FX_LOOP_COUNT a b delta) := by
  unfold in_loop_range FX_LOOP_COUNT
  by_cases hpos : delta > 0
  · simp only [hpos, if_true]
    rw [← tdiv_count_spec (b - a) delta hpos k]
    constructor <;> intro h <;> linarith
  · simp only [hpos, if_false]
    have hneg : 0 < -delta := by omega
    have he : a - b - delta - 1 = (a - b) + -delta - 1 := by ring
    rw [he, ← tdiv_count_spec (a - b) (-delta) hneg k]
    constructor <;> intro h <;> linarith

theorem ncard_nat_lt (n : Int) : Set.ncard {k : Nat | (k : Int) < n} = n.toNat := by
  have h : {k : Nat | (k : Int) < n} = ↑(Finset.range n.toNat) := by
    ext k
    simp only [Set.mem_setOf_eq, Finset.coe_range, Set.mem_Iio]
    omega
  rw [h, Set.ncard_coe_Finset, Finset.card_range]

theorem to_size_t_of_nonneg (x : Int) (h0 : 0 ≤ x) (h1 : x ≤ INTPTR_MAX) :
    (to_size_t x : Int) = x := by
  unfold to_size_t
  unfold INTPTR_MAX at h1
  have hp : (2 : Int) ^ 64 = 18446744073709551616 := by norm_num
  have hq : (2 : Int) ^ 63 = 9223372036854775808 := by norm_num
  rw [hp]
  rw [hq] at h1
  omega

theorem to_size_t_of_neg (x : Int) (h0 : x < 0) (h1 : INTPTR_MIN ≤ x) :
    (to_size_t x : Int) = x + 2 ^ 64 := by
  unfold to_size_t
  unfold INTPTR_MIN at h1
  have hp : (2 : Int) ^ 64 = 18446744073709551616 := by norm_num
  have hq : (2 : Int) ^ 63 = 9223372036854775808 := by norm_num
  rw [hp]
  rw [hq] at h1
  omega

/-! ## The claims -/

/-- C1. Share-aware list release: when the first `k` cells `as` of the list at
`dst` each have count exactly 1 and the cell `nxt` that follows is absent or has
count above 1, `FX_FREE_LIST_IMPL` (and `fx_free_list_simple`, its instance with
`FX_NOP`) returns, with any fuel above `k`, a null handle and a memory in which
exactly the cells `as` were released by `fx_free` (each once, in list order), the
payload destructor ran once on each of them, the count of `nxt` is one lower, and
every other cell is unchanged. -/
theorem C1_share_aware_list_release (hd_free_f : Option Nat)
    (m : Mem fx_list_simple_data_t) (as : List Addr) (dst nxt : Addr) (fuel : Nat)
    (hchain : owned_chain m.cells as dst nxt = true)
    (hnext : shared_or_nil m.cells nxt = true)
    (hfuel : as.length < fuel) :
    ∃ m1 t,
      FX_FREE_LIST_IMPL hd_free_f fuel m dst = some (m1, 0) ∧
      fx_free_list_simple fuel m dst =
        some (⟨m1.cells, m.trace ++ release_events none as ++ stop_events m.cells nxt⟩, 0) ∧
      m1.trace = m.trace ++ t ∧
      t = release_events hd_free_f as ++ stop_events m.cells nxt ∧
      freed_of t = as ∧
      (∀ f, hd_free_f = some f → calls_of f t = as) ∧
      xadds_of t = as ++ (if nxt = 0 then [] else [nxt]) ∧
      (∀ a ∈ as, m1.cells a = none) ∧
      (∀ c, nxt ≠ 0 → m.cells nxt = some c →
        m1.cells nxt = some { c with rc := c.rc - 1 }) ∧
      (∀ q, q ∉ as → q ≠ nxt → m1.cells q = m.cells q) ∧
      m1.cells 0 = m.cells 0 := by
  have hnin := owned_chain_end_not_mem m.cells as nxt hnext dst hchain
  have hnd := owned_chain_nodup m.cells nxt hnext as dst hchain
  have hstop_free : freed_of (stop_events m.cells nxt) = [] := by
    unfold stop_events
    by_cases h0 : nxt = 0
    · simp [h0, freed_of]
    · cases hc : m.cells nxt <;> simp [h0, freed_of]
  have hstop_calls : ∀ f, calls_of f (stop_events m.cells nxt) = [] := by
    intro f
    unfold stop_events
    by_cases h0 : nxt = 0
    · simp [h0, calls_of]
    · cases hc : m.cells nxt <;> simp [h0, calls_of]
  have hstop_xadds : xadds_of (stop_events m.cells nxt) = if nxt = 0 then [] else [nxt] := by
    unfold stop_events shared_or_nil at *
    by_cases h0 : nxt = 0
    · simp [h0, xadds_of]
    · cases hc : m.cells nxt with
      | none => simp [hc, h0] at hnext
      | some c => simp [h0, xadds_of]
  have h0as : (0 : Addr) ∉ as := by
    intro h0
    obtain ⟨l1, l2, _, hch⟩ := owned_chain_suffix m.cells nxt as dst 0 hchain h0
    simp [owned_chain] at hch
  refine ⟨⟨cells_after_release m.cells as nxt,
      m.trace ++ release_events hd_free_f as ++ stop_events m.cells nxt⟩,
    release_events hd_free_f as ++ stop_events m.cells nxt, ?_, ?_, ?_, rfl, ?_, ?_, ?_, ?_, ?_, ?_, ?_⟩
  · unfold FX_FREE_LIST_IMPL
    rw [free_list_loop_spec hd_free_f as fuel m dst nxt hchain hnext hnin hnd hfuel]
  · unfold fx_free_list_simple FX_FREE_LIST_IMPL
    rw [free_list_loop_spec none as fuel m dst nxt hchain hnext hnin hnd hfuel]
  · simp [List.append_assoc]
  · rw [freed_of_append, freed_of_release_events, hstop_free, List.append_nil]
  · intro f hf
    rw [hf, calls_of_append, calls_of_release_events, hstop_calls, List.append_nil]
  · rw [xadds_of_append, xadds_of_release_events, hstop_xadds]
  · intro a ha
    simp [cells_after_release, ha]
  · intro c hn hc
    simp [cells_after_release, hnin, hn, hc]
  · intro q hq hqn
    simp [cells_after_release, hq, hqn]
  · have h0n : ¬ ((0 : Addr) = nxt ∧ nxt ≠ 0) := fun h => h.2 h.1.symm
    simp only [cells_after_release, h0as, h0n, if_false]

/-- C1, witness: on `A -> B -> C -> nil` with a second handle on `B`, releasing
`A` frees only `A`, lowers the count of `B` from 2 to 1 and leaves `B` and `C`
intact. -/
theorem C1_share_aware_list_release_witness :
    owned_chain list_ABC.cells [1] 1 2 = true ∧
    shared_or_nil list_ABC.cells 2 = true ∧
    ∃ m1 t,
      FX_FREE_LIST_IMPL (some 7) 2 list_ABC 1 = some (m1, 0) ∧
      fx_free_list_simple 2 list_ABC 1 =
        some (⟨m1.cells, list_ABC.trace ++ release_events none [1] ++
          stop_events list_ABC.cells 2⟩, 0) ∧
      m1.trace = list_ABC.trace ++ t ∧
      t = release_events (some 7) [1] ++ stop_events list_ABC.cells 2 ∧
      freed_of t = [1] ∧
      (∀ f, some 7 = some f → calls_of f t = [1]) ∧
      xadds_of t = [1] ++ (if (2 : Addr) = 0 then [] else [2]) ∧
      (∀ a ∈ [1], m1.cells a = none) ∧
      (∀ c, (2 : Addr) ≠ 0 → list_ABC.cells 2 = some c →
        m1.cells 2 = some { c with rc := c.rc - 1 }) ∧
      (∀ q, q ∉ [1] → q ≠ 2 → m1.cells q = list_ABC.cells q) ∧
      m1.cells 0 = list_ABC.cells 0 :=
  ⟨by decide, by decide,
    C1_share_aware_list_release (some 7) list_ABC [1] 1 2 2 (by decide) (by decide) (by decide)⟩

/-- C2. Count invariant on release of a single cell: for an object whose stored
count is `n ≥ 1`, `fx_free_ptr`, `fx_free_str` and `FX_FREE_REF_IMPL` store
`n - 1`, call `fx_free` on the allocation exactly when `n = 1`, leave the
allocation in place with only its count changed when `n > 1`, touch no other
allocation, and empty the handle. -/
theorem C2_count_invariant_on_release (n : Int) (h1 : 1 ≤ n) (h2 : n ≤ INTPTR_MAX) :
    (∀ (α : Type) [HasRc α] (m : Mem α) (p : Addr) (c : α),
      p ≠ 0 → m.cells p = some c → HasRc.rc c = n →
      fx_free_ptr m p =
        some (⟨cells_after_decref m.cells p n (HasRc.set_rc c (n - 1)),
               m.trace ++ [Event.xadd p n (n - 1)] ++ (if n = 1 then [Event.free p] else [])⟩,
              0)) ∧
    (∀ (m : Mem str_block) (str : fx_str_t) (b : str_block),
      str.rc ≠ 0 → m.cells str.rc = some b → b.rc = n →
      fx_free_str m str =
        some (⟨cells_after_decref m.cells str.rc n { b with rc := n - 1 },
               m.trace ++ [Event.xadd str.rc n (n - 1)] ++
                 (if n = 1 then [Event.free str.rc] else [])⟩,
              { str with rc := 0 })) ∧
    (∀ (arg_free_f : Option Nat) (m : Mem fx_ref_simple_data_t) (dst : Addr)
        (c : fx_ref_simple_data_t),
      dst ≠ 0 → m.cells dst = some c → c.rc = n →
      FX_FREE_REF_IMPL arg_free_f m dst =
        some (⟨cells_after_decref m.cells dst n { c with rc := n - 1 },
               m.trace ++ [Event.xadd dst n (n - 1)] ++
                 (if n = 1 then hd_free_events arg_free_f dst ++ [Event.free dst] else [])⟩,
              0)) := by
  refine ⟨?_, ?_, ?_⟩
  · intro α _ m p c hp hc hrc
    by_cases hn : n = 1
    · subst hn
      simp only [fx_free_ptr, if_neg hp, FX_DECREF_eq m p c 1 hc hrc h1 h2, if_true,
        fx_free_eq _ _ p _ hp, cells_after_decref_one, List.append_assoc]
    · simp only [fx_free_ptr, if_neg hp, FX_DECREF_eq m p c n hc hrc h1 h2, if_neg hn,
        cells_after_decref_shared _ _ _ _ hn, List.append_nil]
  · intro m str b hp hc hrc
    by_cases hn : n = 1
    · subst hn
      simp only [fx_free_str, if_neg hp, FX_DECREF_eq m str.rc b 1 hc hrc h1 h2, if_true,
        fx_free_eq _ _ str.rc _ hp, cells_after_decref_one, List.append_assoc]
    · simp only [fx_free_str, if_neg hp, FX_DECREF_eq m str.rc b n hc hrc h1 h2, if_neg hn,
        cells_after_decref_shared _ _ _ _ hn, List.append_nil, HasRc.set_rc]
  · intro arg_free_f m dst c hp hc hrc
    by_cases hn : n = 1
    · subst hn
      cases arg_free_f <;>
        simp only [FX_FREE_REF_IMPL, if_neg hp, FX_DECREF_eq m dst c 1 hc hrc h1 h2, if_true,
          call_free_f, Mem.log, hd_free_events, fx_free_eq _ _ dst _ hp,
          cells_after_decref_one, List.append_assoc, List.nil_append]
    · simp only [FX_FREE_REF_IMPL, if_neg hp, FX_DECREF_eq m dst c n hc hrc h1 h2, if_neg hn,
        cells_after_decref_shared _ _ _ _ hn, List.append_nil, HasRc.set_rc]

/-- C2, witness: releasing one of two handles on the string `"ab"` stores the
count 1 and releases nothing. -/
theorem C2_count_invariant_on_release_witness :
    (1 : Int) ≤ 2 ∧ (2 : Int) ≤ INTPTR_MAX ∧ str_ab.rc ≠ 0 ∧
    (str_mem 2).cells str_ab.rc = some ⟨2, [97, 98]⟩ ∧
    fx_free_str (str_mem 2) str_ab =
      some (⟨cells_after_decref (str_mem 2).cells str_ab.rc 2 ⟨2 - 1, [97, 98]⟩,
             (str_mem 2).trace ++ [Event.xadd str_ab.rc 2 (2 - 1)] ++
               (if (2 : Int) = 1 then [Event.free str_ab.rc] else [])⟩,
            { str_ab with rc := 0 }) :=
  ⟨by decide, by decide, by decide, rfl,
    (C2_count_invariant_on_release 2 (by decide) (by decide)).2.1
      (str_mem 2) str_ab ⟨2, [97, 98]⟩ (by decide) rfl rfl⟩

/-- C3. The injected destructor runs exactly on the last reference: for a foreign
handle or an exception payload whose count is `n ≥ 1`, `fx_free_cptr` and
`fx_free_exn` store `n - 1`; when `n = 1` they call the stored `free_f` once (for
a foreign handle on the stored raw pointer, followed by `fx_free` of the wrapper;
for an exception on the payload block), and when `n > 1` they call nothing. -/
theorem C3_destructor_on_last_reference (n : Int) (h1 : 1 ≤ n) (h2 : n ≤ INTPTR_MAX) :
    (∀ (m : Mem fx_cptr_data_t) (p : Addr) (d : fx_cptr_data_t),
      p ≠ 0 → m.cells p = some d → d.rc = n →
      fx_free_cptr m p =
        some (⟨cells_after_decref m.cells p n { d with rc := n - 1 },
               m.trace ++ [Event.xadd p n (n - 1)] ++
                 (if n = 1 then [Event.call d.free_f d.ptr, Event.free p] else [])⟩,
              if n = 1 then 0 else p)) ∧
    (∀ (m : Mem fx_exndata_t) (exn : fx_exn_t) (d : fx_exndata_t),
      exn.data ≠ 0 → m.cells exn.data = some d → d.rc = n →
      fx_free_exn m exn =
        some (⟨fun q => if q = exn.data then some { d with rc := n - 1 } else m.cells q,
               m.trace ++ [Event.xadd exn.data n (n - 1)] ++
                 (if n = 1 then [Event.call d.free_f exn.data] else [])⟩,
              { exn with data := 0 })) := by
  refine ⟨?_, ?_⟩
  · intro m p d hp hc hrc
    by_cases hn : n = 1
    · subst hn
      simp only [fx_free_cptr, if_neg hp, FX_DECREF_eq m p d 1 hc hrc h1 h2, if_true,
        Mem.log, HasRc.set_rc, fx_free_eq _ _ p _ hp, cells_after_decref_one,
        List.append_assoc, List.singleton_append, List.cons_append, List.nil_append]
    · simp only [fx_free_cptr, if_neg hp, FX_DECREF_eq m p d n hc hrc h1 h2, if_neg hn,
        cells_after_decref_shared _ _ _ _ hn, List.append_nil, HasRc.set_rc]
  · intro m exn d hp hc hrc
    by_cases hn : n = 1
    · subst hn
      simp only [fx_free_exn, if_neg hp, FX_DECREF_eq m exn.data d 1 hc hrc h1 h2, if_true,
        Mem.log, HasRc.set_rc]
    · simp only [fx_free_exn, if_neg hp, FX_DECREF_eq m exn.data d n hc hrc h1 h2, if_neg hn,
        List.append_nil, HasRc.set_rc]

/-- C3, witness: releasing the only handle on a foreign resource calls its
destructor once on the raw pointer and then releases the wrapper. -/
theorem C3_destructor_on_last_reference_witness :
    (1 : Int) ≤ 1 ∧ (1 : Int) ≤ INTPTR_MAX ∧ (5 : Addr) ≠ 0 ∧
    (cptr_mem 1).cells 5 = some ⟨1, 9, 77⟩ ∧
    fx_free_cptr (cptr_mem 1) 5 =
      some (⟨cells_after_decref (cptr_mem 1).cells 5 1 ⟨1 - 1, 9, 77⟩,
             (cptr_mem 1).trace ++ [Event.xadd 5 1 (1 - 1)] ++
               (if (1 : Int) = 1 then [Event.call 9 77, Event.free 5] else [])⟩,
            if (1 : Int) = 1 then 0 else 5) :=
  ⟨by decide, by decide, by decide, rfl,
    (C3_destructor_on_last_reference 1 (by decide) (by decide)).1
      (cptr_mem 1) 5 ⟨1, 9, 77⟩ (by decide) rfl rfl⟩

/-- C4. `fx_copy_str` on a string whose count cell is at address 16 and holds 1:
the memory is unchanged, so the count is still 1 and not 2; the field `rc` of the
source descriptor has moved from 16 to 17; the destination holds that moved
pointer, which is not the count cell of the source string. -/
theorem C4_fx_copy_str_adds_to_the_pointer :
    (str_mem 1).cells str_ab.rc = some ⟨1, [97, 98]⟩ ∧
    (fx_copy_str (str_mem 1) str_ab).1.cells str_ab.rc = some ⟨1, [97, 98]⟩ ∧
    (fx_copy_str (str_mem 1) str_ab).1.trace = (str_mem 1).trace ∧
    (fx_copy_str (str_mem 1) str_ab).2.1 = ⟨17, 24, 2⟩ ∧
    (fx_copy_str (str_mem 1) str_ab).2.1 ≠ str_ab ∧
    (fx_copy_str (str_mem 1) str_ab).2.2 = ⟨17, 24, 2⟩ ∧
    (fx_copy_str (str_mem 1) str_ab).2.2.rc ≠ str_ab.rc := by
  refine ⟨rfl, rfl, rfl, ?_, ?_, ?_, ?_⟩ <;> decide

/-- C5. `fx_make_str` on the two code points `"ab"` with a successful allocation
at address 32: the call returns `FX_OK`, the descriptor has the count cell at 32,
the data directly after it and length 2, the contents are `"ab"`, and the stored
count is whatever value `junk_rc` the allocator left in the count cell, since no
statement writes it. With `junk_rc = 0` the stored count is 0 and not 1. -/
theorem C5_fx_make_str_leaves_the_count_unset (junk_rc : Int) :
    (fx_make_str FX_EXN_OutOfMemError (str_mem 1) ⟨0, 0, 0⟩ (some [97, 98]) 2 32 junk_rc
        (fun _ => 0)).map (fun r => (r.1, r.2.1.cells 32, r.2.2, str_contents r.2.1 r.2.2)) =
      some (FX_OK, some ⟨junk_rc, [97, 98]⟩, ⟨32, 40, 2⟩, some [97, 98]) ∧
    ((fx_make_str FX_EXN_OutOfMemError (str_mem 1) ⟨0, 0, 0⟩ (some [97, 98]) 2 32 0
        (fun _ => 0)).map (fun r => r.2.1.cells 32) = some (some ⟨0, [97, 98]⟩)) ∧
    (0 : Int) ≠ 1 := by
  refine ⟨?_, ?_, by decide⟩ <;> rfl

/-- C6. `fx_make_str` on empty input: with null data (whatever the length
argument) or with length zero, a successful allocation makes the call return
`FX_OK` with a descriptor whose count cell is the new, live, non-null block, whose
data pointer is the non-null address directly after the count cell, and whose
length is 0. -/
theorem C6_fx_make_str_empty (FX_OUT_OF_MEM_ERR : Int) (m : Mem str_block) (str : fx_str_t)
    (strdata : Option (List Nat)) (length : Int)
    (ret : Addr) (junk_rc : Int) (junk : Nat → Nat)
    (halloc : ret ≠ 0) (hempty : strdata = none ∨ length = 0) :
    ∃ m1 s,
      fx_make_str FX_OUT_OF_MEM_ERR m str strdata length ret junk_rc junk =
        some (FX_OK, m1, s) ∧
      s.rc = ret ∧ s.rc ≠ 0 ∧
      s.data = s.rc + SIZEOF_INT_ ∧ s.data ≠ 0 ∧
      s.length = 0 ∧
      (∃ b, m1.cells s.rc = some b) ∧
      str_contents m1 s = some [] ∧
      (∀ q, q ≠ ret → m1.cells q = m.cells q) ∧
      m1.trace = m.trace := by
  have hlen : (if strdata.isNone then 0 else length) = 0 := by
    rcases hempty with h | h
    · simp [h]
    · simp [h]
  refine ⟨m.write ret (some (fresh_str_block 8 junk_rc junk)),
    ⟨ret, ret + SIZEOF_INT_, 0⟩, ?_, rfl, halloc, rfl, ?_, rfl, ?_, ?_, ?_, rfl⟩
  · simp only [fx_make_str, hlen, fx_malloc]
    simp [halloc, FX_OK, SIZEOF_INT_, SIZEOF_CHAR_]
  · simp [SIZEOF_INT_]
  · exact ⟨fresh_str_block 8 junk_rc junk, by simp [Mem.write]⟩
  · simp [str_contents, Mem.write]
  · intro q hq
    simp [Mem.write, hq]

/-- C6, witness: a null data pointer with length argument 5. -/
theorem C6_fx_make_str_empty_witness :
    (32 : Addr) ≠ 0 ∧ ((none : Option (List Nat)) = none ∨ (5 : Int) = 0) ∧
    ∃ m1 s,
      fx_make_str FX_EXN_OutOfMemError (str_mem 1) ⟨0, 0, 0⟩ none 5 32 0 (fun _ => 0) =
        some (FX_OK, m1, s) ∧
      s.rc = 32 ∧ s.rc ≠ 0 ∧
      s.data = s.rc + SIZEOF_INT_ ∧ s.data ≠ 0 ∧
      s.length = 0 ∧
      (∃ b, m1.cells s.rc = some b) ∧
      str_contents m1 s = some [] ∧
      (∀ q, q ≠ 32 → m1.cells q = (str_mem 1).cells q) ∧
      m1.trace = (str_mem 1).trace :=
  ⟨by decide, Or.inl rfl,
    C6_fx_make_str_empty FX_EXN_OutOfMemError (str_mem 1) ⟨0, 0, 0⟩ none 5 32 0 (fun _ => 0)
      (by decide) (Or.inl rfl)⟩

/-- C7. Break/continue containment: `FX_CHECK_EXN_BREAK_CONTINUE` and its `_ND`
variant turn `FX_EXN_Break` into `FX_OK` and leave the loop, turn
`FX_EXN_Continue` into `FX_OK` and start the next iteration, and never go to the
catch label for them. A check made on the status they leave falls through with
`FX_OK`. Hence an outer loop whose iterations are inner loops in which the bodies
only succeed, break or continue runs every one of its iterations and ends with
`FX_OK` without reaching the catch label. -/
theorem C7_break_continue_containment (inners : List (List (Int → Int)))
    (hbodies : ∀ l ∈ inners, ∀ b ∈ l, ∀ s,
      b s = FX_OK ∨ b s = FX_EXN_Break ∨ b s = FX_EXN_Continue) :
    FX_CHECK_EXN_BREAK_CONTINUE FX_EXN_Break = (FX_OK, Ctl.do_break) ∧
    FX_CHECK_EXN_BREAK_CONTINUE FX_EXN_Continue = (FX_OK, Ctl.do_continue) ∧
    FX_CHECK_EXN_BREAK_CONTINUE_ND FX_EXN_Break = (FX_OK, Ctl.goto_br_label) ∧
    FX_CHECK_EXN_BREAK_CONTINUE_ND FX_EXN_Continue = (FX_OK, Ctl.do_continue) ∧
    (∀ s, s = FX_EXN_Break ∨ s = FX_EXN_Continue →
      FX_CHECK_EXN_BREAK_CONTINUE (FX_CHECK_EXN_BREAK_CONTINUE s).1 =
        (FX_OK, Ctl.fall_through) ∧
      FX_CHECK_EXN_BREAK_CONTINUE_ND (FX_CHECK_EXN_BREAK_CONTINUE_ND s).1 =
        (FX_OK, Ctl.fall_through) ∧
      FX_CHECK_EXN_BREAK_CONTINUE (FX_CHECK_EXN_BREAK_CONTINUE_ND s).1 =
        (FX_OK, Ctl.fall_through)) ∧
    (∀ l ∈ inners,
      (run_loop FX_CHECK_EXN_BREAK_CONTINUE l FX_OK 0).status = FX_OK ∧
      (run_loop FX_CHECK_EXN_BREAK_CONTINUE l FX_OK 0).caught = false ∧
      (run_loop FX_CHECK_EXN_BREAK_CONTINUE_ND l FX_OK 0).status = FX_OK ∧
      (run_loop FX_CHECK_EXN_BREAK_CONTINUE_ND l FX_OK 0).caught = false) ∧
    run_loop FX_CHECK_EXN_BREAK_CONTINUE
        (inners.map (inner_loop_body FX_CHECK_EXN_BREAK_CONTINUE)) FX_OK 0 =
      ⟨FX_OK, false, inners.length⟩ ∧
    run_loop FX_CHECK_EXN_BREAK_CONTINUE_ND
        (inners.map (inner_loop_body FX_CHECK_EXN_BREAK_CONTINUE_ND)) FX_OK 0 =
      ⟨FX_OK, false, inners.length⟩ := by
  have a1 : FX_CHECK_EXN_BREAK_CONTINUE FX_OK = (FX_OK, Ctl.fall_through) := by decide
  have a2 : FX_CHECK_EXN_BREAK_CONTINUE FX_EXN_Break = (FX_OK, Ctl.do_break) := by decide
  have a3 : FX_CHECK_EXN_BREAK_CONTINUE FX_EXN_Continue = (FX_OK, Ctl.do_continue) := by decide
  have b1 : FX_CHECK_EXN_BREAK_CONTINUE_ND FX_OK = (FX_OK, Ctl.fall_through) := by decide
  have b2 : FX_CHECK_EXN_BREAK_CONTINUE_ND FX_EXN_Break = (FX_OK, Ctl.goto_br_label) := by
    decide
  have b3 : FX_CHECK_EXN_BREAK_CONTINUE_ND FX_EXN_Continue = (FX_OK, Ctl.do_continue) := by
    decide
  refine ⟨a2, a3, b2, b3, ?_, ?_, ?_, ?_⟩
  · intro s hs
    rcases hs with h | h <;> subst h <;> decide
  · intro l hl
    have h1 := run_loop_contained FX_CHECK_EXN_BREAK_CONTINUE a1 (Or.inl a2) a3 l 0
      (hbodies l hl)
    have h2 := run_loop_contained FX_CHECK_EXN_BREAK_CONTINUE_ND b1 (Or.inr b2) b3 l 0
      (hbodies l hl)
    exact ⟨h1.1, h1.2, h2.1, h2.2⟩
  · have h := run_loop_nested FX_CHECK_EXN_BREAK_CONTINUE a1 (Or.inl a2) a3 inners 0 hbodies
    rw [h, Nat.zero_add]
  · have h := run_loop_nested FX_CHECK_EXN_BREAK_CONTINUE_ND b1 (Or.inr b2) b3 inners 0 hbodies
    rw [h, Nat.zero_add]

/-- The nested loops of the witness of C7: the first inner loop continues and
then succeeds, the second breaks at once. -/
theorem C7_break_continue_containment_witness :
    run_loop FX_CHECK_EXN_BREAK_CONTINUE
        ([[fun _ => FX_EXN_Continue, fun _ => FX_OK], [fun _ => FX_EXN_Break, fun _ => FX_OK]].map
          (inner_loop_body FX_CHECK_EXN_BREAK_CONTINUE)) FX_OK 0 =
      ⟨FX_OK, false, 2⟩ :=
  (C7_break_continue_containment
    [[fun _ => FX_EXN_Continue, fun _ => FX_OK], [fun _ => FX_EXN_Break, fun _ => FX_OK]]
    (by
      intro l hl b hb s
      simp only [List.mem_cons, List.mem_singleton, List.not_mem_nil, or_false] at hl
      rcases hl with h | h <;> subst h <;>
        simp only [List.mem_cons, List.mem_singleton, List.not_mem_nil, or_false] at hb <;>
        rcases hb with h | h <;> subst h <;> simp)).2.2.2.2.2.2.1

/-- C8. Status propagation: a status `s` that is non-negative, a built-in failure
kind, a user tag at or below `FX_EXN_User`, or any other negative value different
from the two control codes, leaves `FX_CHECK_EXN_BREAK_CONTINUE`, its `_ND`
variant, `FX_CHECK_EXN` and `FX_CALL` unchanged; control falls through when
`s ≥ 0` and goes to the catch label when `s < 0`. A loop whose body raises such a
negative `s` is left for the catch label with the status still `s`. -/
theorem C8_status_propagation (s : Int)
    (hs : 0 ≤ s ∨ s ∈ builtin_failures ∨ s ≤ FX_EXN_User ∨
      (s < 0 ∧ s ≠ FX_EXN_Break ∧ s ≠ FX_EXN_Continue)) :
    FX_CHECK_EXN_BREAK_CONTINUE s =
      (s, if 0 ≤ s then Ctl.fall_through else Ctl.goto_label) ∧
    FX_CHECK_EXN_BREAK_CONTINUE_ND s =
      (s, if 0 ≤ s then Ctl.fall_through else Ctl.goto_label) ∧
    FX_CHECK_EXN s = (s, if 0 ≤ s then Ctl.fall_through else Ctl.goto_label) ∧
    FX_CALL s = (s, if 0 ≤ s then Ctl.fall_through else Ctl.goto_label) ∧
    (s < 0 → ∀ (rest : List (Int → Int)) (st : Int) (n : Nat),
      run_loop FX_CHECK_EXN_BREAK_CONTINUE ((fun _ => s) :: rest) st n = ⟨s, true, n + 1⟩ ∧
      run_loop FX_CHECK_EXN_BREAK_CONTINUE_ND ((fun _ => s) :: rest) st n = ⟨s, true, n + 1⟩) := by
  have hne : 0 ≤ s ∨ (s < 0 ∧ s ≠ FX_EXN_Break ∧ s ≠ FX_EXN_Continue) := by
    rcases hs with h | h | h | h
    · exact Or.inl h
    · right
      simp only [builtin_failures, List.mem_cons, List.mem_singleton, List.not_mem_nil,
        or_false] at h
      unfold FX_EXN_Failure FX_EXN_AssertError FX_EXN_NotFoundError FX_EXN_OutOfMemError
        FX_EXN_OutOfRangeError FX_EXN_DivByZeroError FX_EXN_SizeMismatchError
        FX_EXN_TypeMismatchError FX_EXN_DimError FX_EXN_SizeError FX_EXN_FileOpenError
        FX_EXN_NullFileError FX_EXN_IOError FX_EXN_NoMatchError FX_EXN_NullPtrError
        FX_EXN_ZeroStepError FX_EXN_ASCIIError FX_EXN_NullListError FX_EXN_OptionError at h
      unfold FX_EXN_Break FX_EXN_Continue
      omega
    · right
      unfold FX_EXN_User at h
      unfold FX_EXN_Break FX_EXN_Continue
      omega
    · exact Or.inr h
  rcases hne with h | ⟨hneg, hb, hc⟩
  · have hge : s ≥ 0 := h
    have hn : ¬ s < 0 := by omega
    simp only [FX_CHECK_EXN_BREAK_CONTINUE, FX_CHECK_EXN_BREAK_CONTINUE_ND, FX_CHECK_EXN,
      FX_CALL, hge, h, if_true, true_and]
    intro hlt
    exact absurd hlt hn
  · have hge : ¬ s ≥ 0 := by omega
    have hge2 : ¬ 0 ≤ s := by omega
    have e1 : FX_CHECK_EXN_BREAK_CONTINUE s = (s, Ctl.goto_label) := by
      simp only [FX_CHECK_EXN_BREAK_CONTINUE, hge, hb, hc, if_false]
    have e2 : FX_CHECK_EXN_BREAK_CONTINUE_ND s = (s, Ctl.goto_label) := by
      simp only [FX_CHECK_EXN_BREAK_CONTINUE_ND, hge, hb, hc, if_false]
    refine ⟨by simp only [e1, hge2, if_false], by simp only [e2, hge2, if_false],
      by simp only [FX_CHECK_EXN, hge, hge2, if_false],
      by simp only [FX_CALL, hge, hge2, if_false], ?_⟩
    intro _ rest st n
    simp only [run_loop, e1, e2, and_self]

/-- C8, witness: the user tag `-1030` goes to the catch label unchanged. -/
theorem C8_status_propagation_witness :
    FX_CHECK_EXN_BREAK_CONTINUE (-1030) = (-1030, Ctl.goto_label) ∧
    FX_CHECK_EXN_BREAK_CONTINUE_ND (-1030) = (-1030, Ctl.goto_label) ∧
    FX_CHECK_EXN (-1030) = (-1030, Ctl.goto_label) ∧
    FX_CALL (-1030) = (-1030, Ctl.goto_label) :=
  have h := C8_status_propagation (-1030) (Or.inr (Or.inr (Or.inl (by decide))))
  ⟨h.1, h.2.1, h.2.2.1, h.2.2.2.1⟩

/-- C9. The status code space is disjoint: `FX_OK` is 0; the built-in failure
codes and the two control codes are negative and pairwise distinct; no control
code is a failure code; `FX_EXN_User` is `-1024`, and no tag at or below it is a
built-in failure code or a control code. -/
theorem C9_status_codes_disjoint :
    FX_OK = 0 ∧
    (∀ t ∈ builtin_failures ++ control_codes, t < 0) ∧
    (builtin_failures ++ control_codes).Nodup ∧
    (∀ t ∈ control_codes, t ∉ builtin_failures) ∧
    control_codes = [FX_EXN_Break, FX_EXN_Continue] ∧
    FX_EXN_User = -1024 ∧
    (∀ t : Int, t ≤ FX_EXN_User → t ∉ builtin_failures ++ control_codes) ∧
    (∀ t ∈ builtin_failures ++ control_codes, FX_EXN_User < t ∧ t ≠ FX_OK) := by
  refine ⟨rfl, by decide, by decide, by decide, rfl, rfl, ?_, by decide⟩
  intro t ht hmem
  have hall : ∀ u ∈ builtin_failures ++ control_codes, FX_EXN_User < u := by decide
  have := hall t hmem
  omega

/-- C10. Null release is a no-op: on every memory, releasing an empty descriptor
of any family (a string with null count pointer, a null generic, foreign, list
or boxed-cell handle, a tag-only exception, a closure with null environment)
returns the same memory, with the same cells and the same trace, and the same
descriptor, which stays null; the tag of the exception is unchanged. -/
theorem C10_null_release_is_noop :
    (∀ (m : Mem str_block) (data : Addr) (length : Int),
      fx_free_str m ⟨0, data, length⟩ = some (m, ⟨0, data, length⟩)) ∧
    (∀ (α : Type) [HasRc α] (m : Mem α), fx_free_ptr m 0 = some (m, 0)) ∧
    (∀ (m : Mem fx_cptr_data_t), fx_free_cptr m 0 = some (m, 0)) ∧
    (∀ (m : Mem fx_exndata_t) (tag : Int), fx_free_exn m ⟨tag, 0⟩ = some (m, ⟨tag, 0⟩)) ∧
    (∀ (hd_free_f : Option Nat) (fuel : Nat) (m : Mem fx_list_simple_data_t),
      FX_FREE_LIST_IMPL hd_free_f (fuel + 1) m 0 = some (m, 0)) ∧
    (∀ (fuel : Nat) (m : Mem fx_list_simple_data_t),
      fx_free_list_simple (fuel + 1) m 0 = some (m, 0)) ∧
    (∀ (arg_free_f : Option Nat) (m : Mem fx_ref_simple_data_t),
      FX_FREE_REF_IMPL arg_free_f m 0 = some (m, 0)) ∧
    (∀ (m : Mem fx_ref_simple_data_t), fx_free_ref_simple m 0 = some (m, 0)) ∧
    (∀ (m : Mem fx_fv_t) (fp : Nat), FX_FREE_FP m ⟨fp, 0⟩ = some (m, ⟨fp, 0⟩)) ∧
    (∀ (m : Mem fx_fv_t) (fp : Nat), fx_free_fp m ⟨fp, 0⟩ = some (m, ⟨fp, 0⟩)) := by
  refine ⟨?_, ?_, ?_, ?_, ?_, ?_, ?_, ?_, ?_, ?_⟩
  · intro m data length; rfl
  · intro α _ m; rfl
  · intro m; rfl
  · intro m tag; rfl
  · intro hd_free_f fuel m; rfl
  · intro fuel m; rfl
  · intro arg_free_f m; rfl
  · intro m; rfl
  · intro m fp; rfl
  · intro m fp; rfl


/-- C11. Copy then release is the identity on the object: for an object whose
count `n ≥ 1` is a count that an increment can follow within `int_`
(`n < INTPTR_MAX`), `fx_copy_ptr`, `fx_copy_exn` and `fx_copy_cptr` store `n + 1`
and yield a handle equal to the source; releasing that copy with `fx_free_ptr`,
`fx_free_exn`, `fx_free_cptr` stores `n` again, gives back the cells of before
the copy, and neither calls `fx_free` nor a destructor. Copying a null handle
yields a null handle and the same memory. -/
theorem C11_copy_then_release (n : Int) (hlo : 1 ≤ n) (hhi : n < INTPTR_MAX) :
    (∀ (α : Type) [HasRc α] [LawfulRc α] (m : Mem α) (p : Addr) (c : α),
      p ≠ 0 → m.cells p = some c → HasRc.rc c = n →
      ∃ m1 p1 m2 p2,
        fx_copy_ptr m p = some (m1, p1) ∧ p1 = p ∧
        m1.cells = (fun q => if q = p then some (HasRc.set_rc c (n + 1)) else m.cells q) ∧
        m1.trace = m.trace ++ [Event.xadd p n (n + 1)] ∧
        fx_free_ptr m1 p1 = some (m2, p2) ∧
        m2.cells = m.cells ∧
        m2.trace = m1.trace ++ [Event.xadd p (n + 1) n]) ∧
    (∀ (m : Mem fx_exndata_t) (exn : fx_exn_t) (d : fx_exndata_t),
      exn.data ≠ 0 → m.cells exn.data = some d → d.rc = n →
      ∃ m1 e1 m2 e2,
        fx_copy_exn m exn = some (m1, e1) ∧ e1 = exn ∧
        m1.cells = (fun q => if q = exn.data then some { d with rc := n + 1 } else m.cells q) ∧
        m1.trace = m.trace ++ [Event.xadd exn.data n (n + 1)] ∧
        fx_free_exn m1 e1 = some (m2, e2) ∧
        m2.cells = m.cells ∧
        m2.trace = m1.trace ++ [Event.xadd exn.data (n + 1) n]) ∧
    (∀ (m : Mem fx_cptr_data_t) (p : Addr) (d : fx_cptr_data_t),
      p ≠ 0 → m.cells p = some d → d.rc = n →
      ∃ m1 p1 m2 p2,
        fx_copy_cptr m p = some (m1, p1) ∧ p1 = p ∧
        m1.cells = (fun q => if q = p then some { d with rc := n + 1 } else m.cells q) ∧
        m1.trace = m.trace ++ [Event.xadd p n (n + 1)] ∧
        fx_free_cptr m1 p1 = some (m2, p2) ∧
        m2.cells = m.cells ∧
        m2.trace = m1.trace ++ [Event.xadd p (n + 1) n]) ∧
    (∀ (α : Type) [HasRc α] (m : Mem α), fx_copy_ptr m 0 = some (m, 0)) ∧
    (∀ (m : Mem fx_exndata_t) (tag : Int), fx_copy_exn m ⟨tag, 0⟩ = some (m, ⟨tag, 0⟩)) ∧
    (∀ (m : Mem fx_cptr_data_t), fx_copy_cptr m 0 = some (m, 0)) := by
  have hne : n + 1 ≠ 1 := by omega
  refine ⟨?_, ?_, ?_, ?_, ?_, ?_⟩
  · intro α _ _ m p c hp hc hrc
    refine ⟨⟨fun q => if q = p then some (HasRc.set_rc c (n + 1)) else m.cells q,
        m.trace ++ [Event.xadd p n (n + 1)]⟩, p,
      ⟨m.cells, (m.trace ++ [Event.xadd p n (n + 1)]) ++ [Event.xadd p (n + 1) n]⟩, 0,
      ?_, rfl, rfl, rfl, ?_, rfl, rfl⟩
    · simp only [fx_copy_ptr, hp, ne_eq, not_false_eq_true, if_true,
        FX_INCREF_eq m p c n hc hrc hlo hhi]
    · simp only [fx_free_ptr, if_neg hp,
        FX_DECREF_after_incref m.cells _ p c n hc hrc hlo hhi, if_neg hne]
  · intro m exn d hp hc hrc
    refine ⟨⟨fun q => if q = exn.data then some { d with rc := n + 1 } else m.cells q,
        m.trace ++ [Event.xadd exn.data n (n + 1)]⟩, exn,
      ⟨m.cells, (m.trace ++ [Event.xadd exn.data n (n + 1)]) ++
        [Event.xadd exn.data (n + 1) n]⟩, { exn with data := 0 }, ?_, rfl, rfl, rfl, ?_, rfl, rfl⟩
    · simp only [fx_copy_exn, hp, ne_eq, not_false_eq_true, if_true,
        FX_INCREF_eq m exn.data d n hc hrc hlo hhi, HasRc.set_rc]
    · have h := FX_DECREF_after_incref m.cells (m.trace ++ [Event.xadd exn.data n (n + 1)])
        exn.data d n hc hrc hlo hhi
      simp only [HasRc.set_rc] at h
      simp only [fx_free_exn, if_neg hp, h, if_neg hne]
  · intro m p d hp hc hrc
    refine ⟨⟨fun q => if q = p then some { d with rc := n + 1 } else m.cells q,
        m.trace ++ [Event.xadd p n (n + 1)]⟩, p,
      ⟨m.cells, (m.trace ++ [Event.xadd p n (n + 1)]) ++ [Event.xadd p (n + 1) n]⟩, p,
      ?_, rfl, rfl, rfl, ?_, rfl, rfl⟩
    · simp only [fx_copy_cptr, hp, ne_eq, not_false_eq_true, if_true,
        FX_INCREF_eq m p d n hc hrc hlo hhi, HasRc.set_rc]
    · have h := FX_DECREF_after_incref m.cells (m.trace ++ [Event.xadd p n (n + 1)])
        p d n hc hrc hlo hhi
      simp only [HasRc.set_rc] at h
      simp only [fx_free_cptr, if_neg hp, h, if_neg hne]
  · intro α _ m; rfl
  · intro m tag; rfl
  · intro m; rfl

/-- C11, witness: copying the only handle on an exception payload and releasing
the copy leaves the payload with count 1. -/
theorem C11_copy_then_release_witness :
    (1 : Int) ≤ 1 ∧ (1 : Int) < INTPTR_MAX ∧
    ∃ m1 e1 m2 e2,
      fx_copy_exn (exn_mem 1) ⟨-1024, 5⟩ = some (m1, e1) ∧ e1 = ⟨-1024, 5⟩ ∧
      m1.cells = (fun q => if q = 5 then some ⟨1 + 1, 9⟩ else (exn_mem 1).cells q) ∧
      m1.trace = (exn_mem 1).trace ++ [Event.xadd 5 1 (1 + 1)] ∧
      fx_free_exn m1 e1 = some (m2, e2) ∧
      m2.cells = (exn_mem 1).cells ∧
      m2.trace = m1.trace ++ [Event.xadd 5 (1 + 1) 1] :=
  ⟨by decide, by decide,
    (C11_copy_then_release 1 (by decide) (by decide)).2.1
      (exn_mem 1) ⟨-1024, 5⟩ ⟨1, 9⟩ (by decide) rfl rfl⟩


/-- C12. `FX_FREE_FP` on one of two closures that share an environment: starting
from an environment with count 1, `FX_COPY_FP` raises the count to 2; releasing
the copy with `FX_FREE_FP` (or `fx_free_fp`) performs no `FX_XADD`, leaves the
count at 2, and calls the destructor of the environment although another closure
still refers to it. -/
theorem C12_FX_FREE_FP_calls_destructor_of_shared_environment :
    ((FX_COPY_FP (fv_mem 1) ⟨3, 5⟩).bind (fun r => FX_FREE_FP r.1 r.2)).map
        (fun r => (r.1.cells 5, r.1.trace, r.2)) =
      some (some ⟨2, 9⟩, [Event.xadd 5 1 2, Event.call 9 5], ⟨3, 0⟩) ∧
    (FX_FREE_FP (fv_mem 2) ⟨3, 5⟩).map (fun r => (r.1.cells 5, r.1.trace, r.2)) =
      some (some ⟨2, 9⟩, [Event.call 9 5], ⟨3, 0⟩) ∧
    (fx_free_fp (fv_mem 2) ⟨3, 5⟩).map (fun r => (r.1.cells 5, r.1.trace, r.2)) =
      some (some ⟨2, 9⟩, [Event.call 9 5], ⟨3, 0⟩) ∧
    (FX_FREE_FP (fv_mem 1) ⟨3, 5⟩).map (fun r => (r.1.cells 5, r.1.trace, r.2)) =
      some (some ⟨1, 9⟩, [Event.call 9 5], ⟨3, 0⟩) := by
  refine ⟨?_, ?_, ?_, ?_⟩ <;> decide


/-- C13. Allocation failure is reported atomically by every make operation. When
the allocation fails, `FX_MAKE_LIST_IMPL`, `FX_MAKE_REF_IMPL` and
`FX_MAKE_EXN_IMPL` return `FX_EXN_OutOfMemError`, which is `-4`, with the memory
(cells and trace) and the result handle exactly as on entry; `fx_make_cptr` does
the same with the failure status of its `fx_malloc`, for every negative value of
that status and so for `FX_EXN_OutOfMemError`. When the allocation succeeds (and,
for a list built with `addref_tl`, the tail is null or live) each of them returns
`FX_OK` and the new block as the handle. -/
theorem C13_allocation_failure_is_atomic :
    FX_EXN_OutOfMemError = -4 ∧ FX_EXN_OutOfMemError ≠ FX_OK ∧
    (∀ (hd_copy_f : Option Nat) (m : Mem fx_list_simple_data_t) (hd : Int) (tl : Addr)
        (addref_tl : Bool) (h : Addr) (fresh : fx_list_simple_data_t),
      FX_MAKE_LIST_IMPL hd_copy_f m hd tl addref_tl h 0 fresh =
        some (FX_EXN_OutOfMemError, m, h)) ∧
    (∀ (hd_copy_f : Option Nat) (m : Mem fx_list_simple_data_t) (hd : Int) (tl : Addr)
        (addref_tl : Bool) (h ret : Addr) (fresh : fx_list_simple_data_t),
      ret ≠ 0 → (addref_tl = true → tl ≠ 0 → ∃ c, m.cells tl = some c) →
      ∃ m1, FX_MAKE_LIST_IMPL hd_copy_f m hd tl addref_tl h ret fresh = some (FX_OK, m1, ret)) ∧
    (∀ (arg_copy_f : Option Nat) (m : Mem fx_ref_simple_data_t) (arg : Int) (h : Addr)
        (fresh : fx_ref_simple_data_t),
      FX_MAKE_REF_IMPL arg_copy_f m arg h 0 fresh = some (FX_EXN_OutOfMemError, m, h)) ∧
    (∀ (arg_copy_f : Option Nat) (m : Mem fx_ref_simple_data_t) (arg : Int) (h ret : Addr)
        (fresh : fx_ref_simple_data_t),
      ret ≠ 0 →
      ∃ m1, FX_MAKE_REF_IMPL arg_copy_f m arg h ret fresh = some (FX_OK, m1, ret)) ∧
    (∀ (exn_tag : Int) (exndata_free : Nat) (arg_copy_f : Option Nat)
        (m : Mem fx_exndata_arg_t) (arg : Int) (e : fx_exn_t) (fresh : fx_exndata_arg_t),
      FX_MAKE_EXN_IMPL exn_tag exndata_free arg_copy_f m arg e 0 fresh =
        some (FX_EXN_OutOfMemError, m, e)) ∧
    (∀ (exn_tag : Int) (exndata_free : Nat) (arg_copy_f : Option Nat)
        (m : Mem fx_exndata_arg_t) (arg : Int) (e : fx_exn_t) (ret : Addr)
        (fresh : fx_exndata_arg_t),
      ret ≠ 0 →
      ∃ m1, FX_MAKE_EXN_IMPL exn_tag exndata_free arg_copy_f m arg e ret fresh =
        some (FX_OK, m1, ⟨exn_tag, ret⟩)) ∧
    (∀ (FX_OUT_OF_MEM_ERR : Int) (m : Mem fx_cptr_data_t) (ptr : Addr) (free_f : Nat)
        (h : Addr) (fresh : fx_cptr_data_t),
      FX_OUT_OF_MEM_ERR < 0 →
      fx_make_cptr FX_OUT_OF_MEM_ERR m ptr free_f h 0 fresh = some (FX_OUT_OF_MEM_ERR, m, h)) ∧
    (∀ (m : Mem fx_cptr_data_t) (ptr : Addr) (free_f : Nat) (h : Addr)
        (fresh : fx_cptr_data_t),
      fx_make_cptr FX_EXN_OutOfMemError m ptr free_f h 0 fresh =
        some (FX_EXN_OutOfMemError, m, h)) ∧
    (∀ (FX_OUT_OF_MEM_ERR : Int) (m : Mem fx_cptr_data_t) (ptr : Addr) (free_f : Nat)
        (h ret : Addr) (fresh : fx_cptr_data_t),
      ret ≠ 0 →
      ∃ m1, fx_make_cptr FX_OUT_OF_MEM_ERR m ptr free_f h ret fresh = some (FX_OK, m1, ret)) := by
  refine ⟨rfl, by decide, ?_, ?_, ?_, ?_, ?_, ?_, ?_, ?_, ?_⟩
  · intro hd_copy_f m hd tl addref_tl h fresh
    rfl
  · intro hd_copy_f m hd tl addref_tl h ret fresh hret htl
    by_cases hadd : addref_tl = true ∧ tl ≠ 0
    · obtain ⟨c, hc⟩ := htl hadd.1 hadd.2
      by_cases hq : tl = ret
      · simp [FX_MAKE_LIST_IMPL, FX_DECL_AND_MALLOC, hret, hadd, FX_INCREF, FX_XADD, Mem.write,
          Mem.log, hq]
      · simp [FX_MAKE_LIST_IMPL, FX_DECL_AND_MALLOC, hret, hadd, FX_INCREF, FX_XADD, Mem.write,
          Mem.log, hq, hc, Ne.symm hq]
    · simp [FX_MAKE_LIST_IMPL, FX_DECL_AND_MALLOC, hret, hadd, Mem.write]
  · intro arg_copy_f m arg h fresh
    rfl
  · intro arg_copy_f m arg h ret fresh hret
    simp [FX_MAKE_REF_IMPL, FX_DECL_AND_MALLOC, hret]
  · intro exn_tag exndata_free arg_copy_f m arg e fresh
    rfl
  · intro exn_tag exndata_free arg_copy_f m arg e ret fresh hret
    simp [FX_MAKE_EXN_IMPL, FX_DECL_AND_MALLOC, hret]
  · intro E m ptr free_f h fresh hE
    have : ¬ E ≥ 0 := by omega
    simp [fx_make_cptr, fx_malloc, this]
  · intro m ptr free_f h fresh
    rfl
  · intro E m ptr free_f h ret fresh hret
    simp [fx_make_cptr, fx_malloc, hret, FX_OK, Mem.write]

/-- C13, witness: a cons onto `A -> B -> C` with `addref_tl` reports
`FX_EXN_OutOfMemError` and changes nothing when the allocation fails, and returns
`FX_OK` when it succeeds at address 7. -/
theorem C13_allocation_failure_is_atomic_witness :
    FX_MAKE_LIST_IMPL none list_ABC 5 1 true 0 0 ⟨0, 0, 0⟩ =
      some (FX_EXN_OutOfMemError, list_ABC, 0) ∧
    ∃ m1, FX_MAKE_LIST_IMPL none list_ABC 5 1 true 0 7 ⟨0, 0, 0⟩ = some (FX_OK, m1, 7) :=
  ⟨C13_allocation_failure_is_atomic.2.2.1 none list_ABC 5 1 true 0 ⟨0, 0, 0⟩,
    C13_allocation_failure_is_atomic.2.2.2.1 none list_ABC 5 1 true 0 7 ⟨0, 0, 0⟩ (by decide)
      (fun _ _ => ⟨⟨1, 2, 10⟩, rfl⟩)⟩


/-- C14. Cons then release is the identity on the tail: when `tl` is the empty
list or its first cell is live with a count `n ≥ 1` that an increment can follow
within `int_` (`n < INTPTR_MAX`), `FX_MAKE_LIST_IMPL` with `addref_tl` set and the
new cell allocated at the fresh address `ret` yields there a cell with count 1,
tail `tl` and head `hd`, raises the count of the first cell of `tl` by exactly 1
and changes no other cell; `FX_FREE_LIST_IMPL` on the new cell then calls
`fx_free` on the new cell only and leaves every cell as it was before the cons. -/
theorem C14_cons_then_release (hd_copy_f hd_free_f : Option Nat)
    (m : Mem fx_list_simple_data_t) (hd : Int) (tl h ret : Addr)
    (fresh : fx_list_simple_data_t) (fuel : Nat)
    (hret : ret ≠ 0) (hfresh : m.cells ret = none) (htl : tail_ok m.cells tl = true)
    (hfuel : 2 ≤ fuel) :
    ∃ m1 m2 t,
      FX_MAKE_LIST_IMPL hd_copy_f m hd tl true h ret fresh = some (FX_OK, m1, ret) ∧
      m1.cells ret = some ⟨1, tl, hd⟩ ∧
      (∀ c, tl ≠ 0 → m.cells tl = some c → m1.cells tl = some { c with rc := c.rc + 1 }) ∧
      (∀ q, q ≠ ret → q ≠ tl → m1.cells q = m.cells q) ∧
      m1.trace = m.trace ++ cons_events m.cells tl ++ hd_free_events hd_copy_f ret ∧
      FX_FREE_LIST_IMPL hd_free_f fuel m1 ret = some (m2, 0) ∧
      m2.cells = m.cells ∧
      m2.trace = m1.trace ++ t ∧
      freed_of t = [ret] ∧
      xadds_of t = ret :: (if tl = 0 then [] else [tl]) := by
  have hne : tl ≠ ret := by
    intro he
    unfold tail_ok at htl
    rw [he] at htl
    simp [hfresh, hret] at htl
  have hm1 := make_list_addref_eq hd_copy_f m hd tl h ret fresh hret hfresh htl
  have hret_cell : cells_after_cons m.cells hd tl ret ret = some ⟨1, tl, hd⟩ := by
    simp [cells_after_cons]
  have htl_cell : ∀ c, tl ≠ 0 → m.cells tl = some c →
      cells_after_cons m.cells hd tl ret tl = some { c with rc := c.rc + 1 } := by
    intro c h0 hc
    simp [cells_after_cons, hne, h0, hc]
  have hchain : owned_chain (cells_after_cons m.cells hd tl ret) [ret] ret tl = true := by
    simp [owned_chain, hret_cell, hret]
  have hshared : shared_or_nil (cells_after_cons m.cells hd tl ret) tl = true := by
    unfold shared_or_nil
    unfold tail_ok at htl
    by_cases h0 : tl = 0
    · simp [h0]
    · cases hc : m.cells tl with
      | none => simp [hc, h0] at htl
      | some c =>
        simp only [hc, h0, decide_False, Bool.false_or, Bool.and_eq_true,
          decide_eq_true_eq] at htl
        have h1 : 1 < c.rc + 1 := by omega
        have h2 : c.rc + 1 ≤ INTPTR_MAX := by omega
        simp [htl_cell c h0 hc, h0, h1, h2]
  have hloop := free_list_loop_spec hd_free_f [ret] fuel
    ⟨cells_after_cons m.cells hd tl ret,
      m.trace ++ cons_events m.cells tl ++ hd_free_events hd_copy_f ret⟩ ret tl hchain hshared
    (by simp [hne]) (List.nodup_singleton ret) (by simp; omega)
  refine ⟨_, ⟨m.cells, (m.trace ++ cons_events m.cells tl ++ hd_free_events hd_copy_f ret) ++
      (release_events hd_free_f [ret] ++
        stop_events (cells_after_cons m.cells hd tl ret) tl)⟩,
    release_events hd_free_f [ret] ++ stop_events (cells_after_cons m.cells hd tl ret) tl,
    hm1, hret_cell, htl_cell, ?_, rfl, ?_, rfl, rfl, ?_, ?_⟩
  · intro q hq hq2
    simp [cells_after_cons, hq, hq2]
  · unfold FX_FREE_LIST_IMPL
    rw [hloop]
    simp only [cells_after_cons_release m.cells hd tl ret hfresh hne, List.append_assoc]
  · rw [freed_of_append, freed_of_release_events, freed_of_stop_events, List.append_nil]
  · rw [xadds_of_append, xadds_of_release_events, xadds_of_stop_events _ _ hshared]
    rfl

/-- C14, witness: a cons of 5 onto `A -> B -> C` at the fresh address 7, followed
by the release of the new cell. -/
theorem C14_cons_then_release_witness :
    (7 : Addr) ≠ 0 ∧ list_ABC.cells 7 = none ∧ tail_ok list_ABC.cells 1 = true ∧
    ∃ m1 m2 t,
      FX_MAKE_LIST_IMPL none list_ABC 5 1 true 0 7 ⟨0, 0, 0⟩ = some (FX_OK, m1, 7) ∧
      m1.cells 7 = some ⟨1, 1, 5⟩ ∧
      (∀ c, (1 : Addr) ≠ 0 → list_ABC.cells 1 = some c →
        m1.cells 1 = some { c with rc := c.rc + 1 }) ∧
      (∀ q, q ≠ 7 → q ≠ 1 → m1.cells q = list_ABC.cells q) ∧
      m1.trace = list_ABC.trace ++ cons_events list_ABC.cells 1 ++ hd_free_events none 7 ∧
      FX_FREE_LIST_IMPL none 2 m1 7 = some (m2, 0) ∧
      m2.cells = list_ABC.cells ∧
      m2.trace = m1.trace ++ t ∧
      freed_of t = [7] ∧
      xadds_of t = 7 :: (if (1 : Addr) = 0 then [] else [1]) :=
  ⟨by decide, rfl, by decide,
    C14_cons_then_release none none list_ABC 5 1 0 7 ⟨0, 0, 0⟩ 2 (by decide) rfl (by decide)
      (by decide)⟩


/-- C15. Iterative list release terminates: on every list whose cells `as` form a
chain from `dst` to null, the loop of `FX_FREE_LIST_IMPL` returns within
`as.length + 1` evaluations of its condition (and gives the same result with any
larger amount of fuel); the cells whose count it updates are the first `k` cells
of the chain, each updated once, so no cell is visited twice and there are at
most `as.length` decrements; the cells it frees are the first `j ≤ k` cells. -/
theorem C15_list_release_terminates (hd_free_f : Option Nat)
    (m : Mem fx_list_simple_data_t) (as : List Addr) (dst : Addr)
    (hchain : list_chain m.cells as dst = true) :
    ∃ m1 t k j,
      FX_FREE_LIST_IMPL hd_free_f (as.length + 1) m dst = some (m1, 0) ∧
      (∀ fuel, as.length < fuel → FX_FREE_LIST_IMPL hd_free_f fuel m dst = some (m1, 0)) ∧
      m1.trace = m.trace ++ t ∧
      k ≤ as.length ∧ j ≤ k ∧
      xadds_of t = as.take k ∧
      freed_of t = as.take j ∧
      (xadds_of t).Nodup ∧
      (xadds_of t).length ≤ as.length := by
  have hnd := list_chain_nodup m.cells as dst hchain
  obtain ⟨m1, t, k, j, hrun, htr, hk, hj, hx, hf⟩ :=
    free_list_loop_terminates hd_free_f as m dst hchain hnd
  have hall : ∀ fuel, as.length < fuel →
      FX_FREE_LIST_IMPL hd_free_f fuel m dst = some (m1, 0) := by
    intro fuel hfuel
    unfold FX_FREE_LIST_IMPL
    rw [hrun fuel hfuel]
  refine ⟨m1, t, k, j, hall _ (Nat.lt_succ_self _), hall, htr, hk, hj, hx, hf, ?_, ?_⟩
  · rw [hx]
    exact List.Nodup.sublist (List.take_sublist k as) hnd
  · rw [hx, List.length_take]
    omega

/-- C15, witness: the release of `A -> B -> C -> nil` returns within four
evaluations of the loop condition. -/
theorem C15_list_release_terminates_witness :
    list_chain list_ABC.cells [1, 2, 3] 1 = true ∧
    ∃ m1 t k j,
      FX_FREE_LIST_IMPL (some 7) ([1, 2, 3].length + 1) list_ABC 1 = some (m1, 0) ∧
      (∀ fuel, [1, 2, 3].length < fuel →
        FX_FREE_LIST_IMPL (some 7) fuel list_ABC 1 = some (m1, 0)) ∧
      m1.trace = list_ABC.trace ++ t ∧
      k ≤ [1, 2, 3].length ∧ j ≤ k ∧
      xadds_of t = [1, 2, 3].take k ∧
      freed_of t = [1, 2, 3].take j ∧
      (xadds_of t).Nodup ∧
      (xadds_of t).length ≤ [1, 2, 3].length :=
  ⟨by decide, C15_list_release_terminates (some 7) list_ABC [1, 2, 3] 1 (by decide)⟩


/-- C16. `FX_LOOP_COUNT` counts the range: for all integers `a`, `b` and every
nonzero `delta`, the index `k ≥ 0` gives a value `a + k * delta` inside the
half-open range from `a` towards `b` exactly when `k < max 0 (FX_LOOP_COUNT a b
delta)`; so `max 0 (FX_LOOP_COUNT a b delta)` is the number of such indices and
the number of such values. For `delta > 0` and `a ≤ b` the count is the ceiling
of `(b - a) / delta`, and for an empty range it is never positive. -/
theorem C16_loop_count (a b delta : Int) (hd : delta ≠ 0) :
    (∀ k : Nat, in_loop_range b delta (a + k * delta) ↔
      (k : Int) < max 0 (FX_LOOP_COUNT a b delta)) ∧
    Set.ncard {k : Nat | in_loop_range b delta (a + k * delta)} =
      (max 0 (FX_LOOP_COUNT a b delta)).toNat ∧
    ((Set.ncard {v : Int | ∃ k : Nat, v = a + k * delta ∧ in_loop_range b delta v} : Nat) : Int) =
      max 0 (FX_LOOP_COUNT a b delta) ∧
    (0 < delta → a ≤ b →
      FX_LOOP_COUNT a b delta = ⌈((b - a : Int) : ℚ) / (delta : ℚ)⌉ ∧
      max 0 (FX_LOOP_COUNT a b delta) = ⌈((b - a : Int) : ℚ) / (delta : ℚ)⌉) ∧
    ((∀ k : Nat, ¬ in_loop_range b delta (a + k * delta)) → FX_LOOP_COUNT a b delta ≤ 0) := by
  have hspec := loop_count_spec a b delta hd
  have hset : {k : Nat | in_loop_range b delta (a + k * delta)} =
      {k : Nat | (k : Int) < max 0 (FX_LOOP_COUNT a b delta)} := by
    ext k
    exact hspec k
  have hcard : Set.ncard {k : Nat | in_loop_range b delta (a + k * delta)} =
      (max 0 (FX_LOOP_COUNT a b delta)).toNat := by
    rw [hset, ncard_nat_lt]
  have hinj : Function.Injective (fun k : Nat => a + (k : Int) * delta) := by
    intro k1 k2 h
    have h2 : (k1 : Int) * delta = (k2 : Int) * delta := by
      simpa using h
    have h3 := mul_right_cancel₀ hd h2
    exact_mod_cast h3
  have himg : {v : Int | ∃ k : Nat, v = a + k * delta ∧ in_loop_range b delta v} =
      Set.image (fun k : Nat => a + (k : Int) * delta)
        {k : Nat | in_loop_range b delta (a + k * delta)} := by
    ext v
    simp only [Set.mem_setOf_eq, Set.mem_image]
    constructor
    · rintro ⟨k, hv, hin⟩
      exact ⟨k, hv ▸ hin, hv.symm⟩
    · rintro ⟨k, hin, hv⟩
      exact ⟨k, hv.symm, hv ▸ hin⟩
  refine ⟨hspec, hcard, ?_, ?_, ?_⟩
  · rw [himg, Set.ncard_image_of_injective _ hinj, hcard]
    exact Int.toNat_of_nonneg (le_max_left 0 _)
  · intro hpos hab
    have hc : FX_LOOP_COUNT a b delta = ⌈((b - a : Int) : ℚ) / (delta : ℚ)⌉ := by
      unfold FX_LOOP_COUNT
      simp only [gt_iff_lt, hpos, if_true]
      exact tdiv_ceil_eq (b - a) delta hpos (by omega)
    refine ⟨hc, ?_⟩
    rw [← hc]
    apply max_eq_right
    unfold FX_LOOP_COUNT
    simp only [gt_iff_lt, hpos, if_true]
    exact Int.tdiv_nonneg (by omega) (by omega)
  · intro hempty
    have h0 := hempty 0
    rw [hspec 0] at h0
    have : max 0 (FX_LOOP_COUNT a b delta) ≤ 0 := by
      simpa using h0
    exact le_trans (le_max_right 0 _) this

/-- C16, witness: from 0 towards 10 in steps of 3 there are four values. -/
theorem C16_loop_count_witness :
    (3 : Int) ≠ 0 ∧ FX_LOOP_COUNT 0 10 3 = 4 ∧
    Set.ncard {k : Nat | in_loop_range 10 3 (0 + k * 3)} =
      (max 0 (FX_LOOP_COUNT 0 10 3)).toNat :=
  ⟨by decide, by decide, (C16_loop_count 0 10 3 (by decide)).2.1⟩


/-- C17. `FX_CHECK_ZERO_STEP` with the nonzero step 1 sets the status to
`FX_EXN_ZeroStepError` and goes to the catch label, and with the step 0 it falls
through with the status unchanged: for every `delta` the check raises exactly
when `delta ≠ 0`. -/
theorem C17_FX_CHECK_ZERO_STEP_raises_on_nonzero_step :
    FX_CHECK_ZERO_STEP 1 FX_OK = (FX_EXN_ZeroStepError, Ctl.goto_label) ∧
    FX_CHECK_ZERO_STEP 0 FX_OK = (FX_OK, Ctl.fall_through) ∧
    FX_EXN_ZeroStepError = -18 ∧
    (∀ delta fx_status : Int,
      (FX_CHECK_ZERO_STEP delta fx_status = (FX_EXN_ZeroStepError, Ctl.goto_label) ↔ delta ≠ 0) ∧
      (FX_CHECK_ZERO_STEP delta fx_status = (fx_status, Ctl.fall_through) ↔ delta = 0)) := by
  refine ⟨by decide, by decide, rfl, ?_⟩
  intro delta fx_status
  by_cases h : delta = 0
  · simp [FX_CHECK_ZERO_STEP, h]
  · simp [FX_CHECK_ZERO_STEP, h]

/-- C18. `FX_CHKIDX1` is an exact bounds test: for a dimension size `n ≥ 0` and
an index `idx`, both values of `int_`, the comparison
`(size_t)idx < (size_t)n` holds exactly when `0 ≤ idx < n`; every negative index
is rejected; `FX_CHKIDX` falls through with the status unchanged on an accepted
index and sets the status to `FX_EXN_OutOfRangeError` and goes to the catch label
on a rejected one. -/
theorem C18_FX_CHKIDX1_exact_bounds (n idx : Int)
    (hn0 : 0 ≤ n) (hn1 : n ≤ INTPTR_MAX) (hi0 : INTPTR_MIN ≤ idx) (hi1 : idx ≤ INTPTR_MAX) :
    (FX_CHKIDX1 n idx = true ↔ 0 ≤ idx ∧ idx < n) ∧
    (idx < 0 → FX_CHKIDX1 n idx = false) ∧
    (∀ fx_status : Int,
      (0 ≤ idx ∧ idx < n →
        FX_CHKIDX (FX_CHKIDX1 n idx) fx_status = (fx_status, Ctl.fall_through)) ∧
      (¬ (0 ≤ idx ∧ idx < n) →
        FX_CHKIDX (FX_CHKIDX1 n idx) fx_status = (FX_EXN_OutOfRangeError, Ctl.goto_label))) ∧
    FX_EXN_OutOfRangeError = -5 := by
  have hsize := to_size_t_of_nonneg n hn0 hn1
  have hiff : FX_CHKIDX1 n idx = true ↔ 0 ≤ idx ∧ idx < n := by
    unfold FX_CHKIDX1
    rw [decide_eq_true_eq]
    by_cases hneg : idx < 0
    · have hidx := to_size_t_of_neg idx hneg hi0
      unfold INTPTR_MAX at hn1
      unfold INTPTR_MIN at hi0
      have hp : (2 : Int) ^ 64 = 18446744073709551616 := by norm_num
      have hq : (2 : Int) ^ 63 = 9223372036854775808 := by norm_num
      rw [hp] at hidx
      rw [hq] at hn1 hi0
      constructor
      · intro h
        have : (to_size_t idx : Int) < (to_size_t n : Int) := by exact_mod_cast h
        omega
      · intro h
        omega
    · have hidx := to_size_t_of_nonneg idx (by omega) hi1
      constructor
      · intro h
        have : (to_size_t idx : Int) < (to_size_t n : Int) := by exact_mod_cast h
        omega
      · intro h
        have : (to_size_t idx : Int) < (to_size_t n : Int) := by omega
        exact_mod_cast this
  refine ⟨hiff, ?_, ?_, rfl⟩
  · intro hneg
    cases hb : FX_CHKIDX1 n idx with
    | false => rfl
    | true => exact absurd (hiff.mp hb).1 (by omega)
  · intro fx_status
    constructor
    · intro h
      simp [FX_CHKIDX, hiff.mpr h]
    · intro h
      have hb : FX_CHKIDX1 n idx = false := by
        cases hb : FX_CHKIDX1 n idx with
        | false => rfl
        | true => exact absurd (hiff.mp hb) h
      simp [FX_CHKIDX, hb]

/-- C18, witness: in a dimension of size 4 the index 3 is accepted and the index
`-1` is rejected. -/
theorem C18_FX_CHKIDX1_exact_bounds_witness :
    (0 : Int) ≤ 4 ∧ (4 : Int) ≤ INTPTR_MAX ∧ INTPTR_MIN ≤ (-1 : Int) ∧ (-1 : Int) ≤ INTPTR_MAX ∧
    FX_CHKIDX1 4 3 = true ∧
    FX_CHKIDX1 4 (-1) = false :=
  ⟨by decide, by decide, by decide, by decide, by decide,
    (C18_FX_CHKIDX1_exact_bounds 4 (-1) (by decide) (by decide) (by decide) (by decide)).2.1
      (by decide)⟩


/-- C19. `fx_free_cptr` on one of two handles of a foreign resource (count 2)
leaves the descriptor non-null, because `*cptr = 0` is only reached on the last
reference; releasing the same descriptor a second time decrements the count
again, calls the destructor and frees the wrapper. The other release functions
always return an empty descriptor, on which a second release changes nothing. -/
theorem C19_fx_free_cptr_keeps_the_descriptor :
    (fx_free_cptr (cptr_mem 2) 5).map (fun r => (r.1.cells 5, r.1.trace, r.2)) =
      some (some ⟨1, 9, 77⟩, [Event.xadd 5 2 1], 5) ∧
    ((fx_free_cptr (cptr_mem 2) 5).bind (fun r => fx_free_cptr r.1 r.2)).map
        (fun r => (r.1.cells 5, r.1.trace, r.2)) =
      some (none, [Event.xadd 5 2 1, Event.xadd 5 1 0, Event.call 9 77, Event.free 5], 0) ∧
    (∀ (α : Type) [HasRc α] (m m1 : Mem α) (p h : Addr),
      fx_free_ptr m p = some (m1, h) → h = 0 ∧ fx_free_ptr m1 h = some (m1, h)) ∧
    (∀ (m m1 : Mem str_block) (s s1 : fx_str_t),
      fx_free_str m s = some (m1, s1) → s1.rc = 0 ∧ fx_free_str m1 s1 = some (m1, s1)) ∧
    (∀ (m m1 : Mem fx_exndata_t) (e e1 : fx_exn_t),
      fx_free_exn m e = some (m1, e1) → e1.data = 0 ∧ fx_free_exn m1 e1 = some (m1, e1)) ∧
    (∀ (hd_free_f : Option Nat) (fuel : Nat) (m m1 : Mem fx_list_simple_data_t) (p h : Addr),
      FX_FREE_LIST_IMPL hd_free_f fuel m p = some (m1, h) →
      h = 0 ∧ FX_FREE_LIST_IMPL hd_free_f (fuel + 1) m1 h = some (m1, h)) ∧
    (∀ (arg_free_f : Option Nat) (m m1 : Mem fx_ref_simple_data_t) (p h : Addr),
      FX_FREE_REF_IMPL arg_free_f m p = some (m1, h) →
      h = 0 ∧ FX_FREE_REF_IMPL arg_free_f m1 h = some (m1, h)) := by
  refine ⟨by decide, by decide, ?_, ?_, ?_, ?_, ?_⟩
  · intro α _ m m1 p h hr
    have hh : h = 0 := by
      unfold fx_free_ptr at hr
      split at hr
      · simp at hr; exact hr.2.symm
      · split at hr
        · simp at hr
        · split at hr
          · split at hr
            · simp at hr
            · simp at hr; exact hr.2.symm
          · simp at hr; exact hr.2.symm
    subst hh
    exact ⟨rfl, rfl⟩
  · intro m m1 s s1 hr
    have hh : s1.rc = 0 := by
      unfold fx_free_str at hr
      split at hr
      · next h0 => simp at hr; rw [← hr.2]; exact h0
      · split at hr
        · simp at hr
        · split at hr
          · split at hr
            · simp at hr
            · simp at hr; rw [← hr.2]
          · simp at hr; rw [← hr.2]
    refine ⟨hh, ?_⟩
    simp [fx_free_str, hh]
  · intro m m1 e e1 hr
    have hh : e1.data = 0 := by
      unfold fx_free_exn at hr
      split at hr
      · next h0 => simp at hr; rw [← hr.2]; exact h0
      · split at hr
        · simp at hr
        · split at hr
          · split at hr
            · simp at hr
            · simp at hr; rw [← hr.2]
          · simp at hr; rw [← hr.2]
    refine ⟨hh, ?_⟩
    simp [fx_free_exn, hh]
  · intro hd_free_f fuel m m1 p h hr
    have hh : h = 0 := by
      unfold FX_FREE_LIST_IMPL at hr
      split at hr
      · simp at hr
      · simp at hr; exact hr.2.symm
    subst hh
    exact ⟨rfl, rfl⟩
  · intro arg_free_f m m1 p h hr
    have hh : h = 0 := by
      unfold FX_FREE_REF_IMPL at hr
      simp only at hr
      split at hr
      · simp at hr; exact hr.2.symm
      · split at hr
        · simp at hr
        · split at hr
          · split at hr
            · simp at hr
            · simp at hr; exact hr.2.symm
          · simp at hr; exact hr.2.symm
    subst hh
    exact ⟨rfl, rfl⟩

/-- C20. `FX_FREE_REF_SIMPLE` hands the boxed cell to `fx_free_list_simple`. On
the last handle of the box at address 16, whose payload 32 is read as the tail
pointer, the macro frees the box and then goes on to decrement and free the
unrelated box at address 32, whereas `fx_free_ref_simple` frees the box at 16 only.
On a null handle both do nothing. -/
theorem C20_FX_FREE_REF_SIMPLE_follows_the_payload :
    (fx_free_ref_simple two_boxes 16).map
        (fun r => (r.1.cells 16, r.1.cells 32, r.1.trace, r.2)) =
      some (none, some ⟨1, 0⟩, [Event.xadd 16 1 0, Event.free 16], 0) ∧
    (FX_FREE_REF_SIMPLE 0 3 two_boxes 16).map
        (fun r => (r.1.cells 16, r.1.cells 32, r.1.trace, r.2)) =
      some (none, none,
        [Event.xadd 16 1 0, Event.free 16, Event.xadd 32 1 0, Event.free 32], 0) ∧
    (∀ (pad fuel : Nat) (m : Mem fx_ref_simple_data_t),
      FX_FREE_REF_SIMPLE pad fuel m 0 = some (m, 0) ∧ fx_free_ref_simple m 0 = some (m, 0)) := by
  refine ⟨by decide, by decide, ?_⟩
  intro pad fuel m
  exact ⟨rfl, rfl⟩

end Ficus
